import Mathlib

/-!
Verification development for the session-token codec and session-lifecycle
logic of the repository (src/src/lib/session.ts, src/src/app/page.tsx,
src/src/app/protected/page.tsx).

The TypeScript source is shallowly embedded: strings are Lean strings
(sequences of Unicode scalar values), byte buffers are `List Nat` with every
entry below 256, and JavaScript numbers are modeled as integers (`Int`) --
every number this application reads or writes is a millisecond timestamp,
and fractional or non-finite doubles are outside the model.  `Date.now()` is
passed explicitly as a `now : Int` parameter; the cookie jar is passed as an
`Option String` (absent cookie = `none`).  Fallible operations return
`Option`, and functions that the source makes total by a `try/catch`
(`decrypt`) are total here.
-/

/-! ## UTF-8 (TextEncoder / TextDecoder) -/

/-- Encoding of one Unicode scalar value to UTF-8 bytes (what `TextEncoder`
does to each character of a well-formed string). -/
def utf8EncodeChar (c : Char) : List Nat :=
  let n := c.toNat
  if n < 128 then [n]
  else if n < 2048 then [192 + n / 64, 128 + n % 64]
  else if n < 65536 then [224 + n / 4096, 128 + n / 64 % 64, 128 + n % 64]
  else [240 + n / 262144, 128 + n / 4096 % 64, 128 + n / 64 % 64, 128 + n % 64]

/-- UTF-8 encoding of a character list. -/
def utf8EncodeList : List Char → List Nat
  | [] => []
  | c :: cs => utf8EncodeChar c ++ utf8EncodeList cs

/-- Model of `new TextEncoder().encode(s)`. -/
def utf8Encode (s : String) : List Nat := utf8EncodeList s.data

/-- The Unicode replacement character U+FFFD emitted by `TextDecoder` for
invalid byte sequences. -/
def replChar : Char := Char.ofNat 65533

/-- Whether a byte is a UTF-8 continuation byte (10xxxxxx). -/
def contByte (b : Nat) : Bool := decide (128 ≤ b ∧ b < 192)

/-- Validity of a 3-byte sequence lead/continuations, including the
overlong (E0) and surrogate (ED) restrictions. -/
def valid3 (b b2 b3 : Nat) : Bool :=
  decide ((128 ≤ b2 ∧ b2 < 192) ∧ (128 ≤ b3 ∧ b3 < 192) ∧
    (b = 224 → 160 ≤ b2) ∧ (b = 237 → b2 < 160))

/-- Validity of a 4-byte sequence lead/continuations, including the
overlong (F0) and out-of-range (F4) restrictions. -/
def valid4 (b b2 b3 b4 : Nat) : Bool :=
  decide ((128 ≤ b2 ∧ b2 < 192) ∧ (128 ≤ b3 ∧ b3 < 192) ∧ (128 ≤ b4 ∧ b4 < 192) ∧
    (b = 240 → 144 ≤ b2) ∧ (b = 244 → b2 < 144))

/-- Model of `new TextDecoder().decode` on a byte list: decodes valid UTF-8
sequences and emits U+FFFD on invalid ones (the default non-fatal mode never
throws; resynchronization after an invalid sequence is approximated by
resuming right after the offending lead byte). -/
def utf8DecodeList : List Nat → List Char
  | [] => []
  | b :: rest =>
    if b < 128 then Char.ofNat b :: utf8DecodeList rest
    else if b < 194 then replChar :: utf8DecodeList rest
    else if b < 224 then
      if contByte (rest.getD 0 0) then
        Char.ofNat ((b - 192) * 64 + (rest.getD 0 0 - 128)) :: utf8DecodeList (rest.drop 1)
      else replChar :: utf8DecodeList rest
    else if b < 240 then
      if valid3 b (rest.getD 0 0) (rest.getD 1 0) then
        Char.ofNat ((b - 224) * 4096 + (rest.getD 0 0 - 128) * 64 + (rest.getD 1 0 - 128))
          :: utf8DecodeList (rest.drop 2)
      else replChar :: utf8DecodeList rest
    else if b < 245 then
      if valid4 b (rest.getD 0 0) (rest.getD 1 0) (rest.getD 2 0) then
        Char.ofNat ((b - 240) * 262144 + (rest.getD 0 0 - 128) * 4096 +
            (rest.getD 1 0 - 128) * 64 + (rest.getD 2 0 - 128))
          :: utf8DecodeList (rest.drop 3)
      else replChar :: utf8DecodeList rest
    else replChar :: utf8DecodeList rest
termination_by l => l.length
decreasing_by all_goals (simp [List.length_cons, List.length_drop]; try omega)

/-- Model of `new TextDecoder().decode` returning a string. -/
def utf8Decode (bytes : List Nat) : String := String.mk (utf8DecodeList bytes)

/-! ## Base64 / base64url (Buffer.toString("base64"), Buffer.from(_, "base64")) -/

/-- The standard base64 alphabet used by `Buffer.toString("base64")`. -/
def b64Alphabet : List Char :=
  "ABCDEFGHIJKLMNOPQRSTUVWXYZabcdefghijklmnopqrstuvwxyz0123456789+/".data

/-- Character for a 6-bit value. -/
def b64CharOf (n : Nat) : Char := b64Alphabet.getD n 'A'

/-- Six-bit value of an alphabet character (`none` for non-alphabet
characters, which Node's lenient base64 decoder skips). -/
def b64ValOf (c : Char) : Option Nat := b64Alphabet.findIdx? (fun x => x == c)

/-- Standard base64 encoding with `=` padding, grouping bytes by three
(model of `Buffer.from(bytes).toString("base64")`). -/
def base64EncodeGroups : List Nat → List Char
  | b1 :: b2 :: b3 :: rest =>
      b64CharOf (b1 / 4) :: b64CharOf (b1 % 4 * 16 + b2 / 16) ::
      b64CharOf (b2 % 16 * 4 + b3 / 64) :: b64CharOf (b3 % 64) :: base64EncodeGroups rest
  | [b1, b2] => [b64CharOf (b1 / 4), b64CharOf (b1 % 4 * 16 + b2 / 16), b64CharOf (b2 % 16 * 4), '=']
  | [b1] => [b64CharOf (b1 / 4), b64CharOf (b1 % 4 * 16), '=', '=']
  | [] => []

/-- The three sequential `.replace` calls of the source `b64url` helper:
drop `=`, then `+` to `-`, then `/` to `_`. -/
def urlSafeChar (c : Char) : Char := if c = '+' then '-' else if c = '/' then '_' else c

/-- Character list of the base64url (unpadded) encoding of a byte list. -/
def b64urlChars (bytes : List Nat) : List Char :=
  ((base64EncodeGroups bytes).filter (fun c => c != '=')).map urlSafeChar

/-- Model of the source function `b64url` on a byte buffer. -/
def b64url (bytes : List Nat) : String := String.mk (b64urlChars bytes)

/-- Model of the source function `b64url` applied to a string (the string is
first UTF-8 encoded, as `TextEncoder` does). -/
def b64urlOfString (s : String) : String := b64url (utf8Encode s)

/-- Inverse character replacement performed by the source `b64urlDecode`:
`-` to `+` and `_` to `/`. -/
def stdOfUrlChar (c : Char) : Char := if c = '-' then '+' else if c = '_' then '/' else c

/-- Reassembling bytes from 6-bit values; trailing groups of 2 or 3 values
produce 1 or 2 bytes (Node's lenient decoder, which never throws). -/
def base64DecodeVals : List Nat → List Nat
  | v1 :: v2 :: v3 :: v4 :: rest =>
      (v1 * 4 + v2 / 16) :: (v2 % 16 * 16 + v3 / 4) :: (v3 % 4 * 64 + v4) :: base64DecodeVals rest
  | [v1, v2] => [v1 * 4 + v2 / 16]
  | [v1, v2, v3] => [v1 * 4 + v2 / 16, v2 % 16 * 16 + v3 / 4]
  | _ => []

/-- Lenient base64 decoding of a character list: characters outside the
alphabet (including `=` padding) are skipped, as `Buffer.from(_, "base64")`
does. -/
def base64DecodeChars (cs : List Char) : List Nat := base64DecodeVals (cs.filterMap b64ValOf)

/-- Model of the source function `b64urlDecode`: undo the URL-safe character
replacements, restore `=` padding to a multiple of four, then decode
leniently. -/
def b64urlDecode (s : String) : List Nat :=
  let replaced := s.data.map stdOfUrlChar
  let pad := if replaced.length % 4 = 0 then 0 else 4 - replaced.length % 4
  base64DecodeChars (replaced ++ List.replicate pad '=')

/-! ## SHA-256 and HMAC-SHA256 (crypto.subtle HMAC sign) -/

/-- Reduction modulo 2^32, applied wherever 32-bit words overflow. -/
def w32 (n : Nat) : Nat := n % 4294967296

/-- Right rotation of a 32-bit word (argument assumed below 2^32). -/
def rotr32 (k x : Nat) : Nat := x / 2 ^ k + x % 2 ^ k * 2 ^ (32 - k)

/-- Logical right shift of a 32-bit word. -/
def shr32 (k x : Nat) : Nat := x / 2 ^ k

/-- Bitwise complement of a 32-bit word. -/
def not32 (x : Nat) : Nat := x ^^^ 4294967295

def shaBigSigma0 (x : Nat) : Nat := rotr32 2 x ^^^ rotr32 13 x ^^^ rotr32 22 x

def shaBigSigma1 (x : Nat) : Nat := rotr32 6 x ^^^ rotr32 11 x ^^^ rotr32 25 x

def shaSmallSigma0 (x : Nat) : Nat := rotr32 7 x ^^^ rotr32 18 x ^^^ shr32 3 x

def shaSmallSigma1 (x : Nat) : Nat := rotr32 17 x ^^^ rotr32 19 x ^^^ shr32 10 x

/-- The 64 SHA-256 round constants. -/
def shaK : List Nat :=
  [1116352408, 1899447441, 3049323471, 3921009573, 961987163,
   1508970993, 2453635748, 2870763221, 3624381080, 310598401,
   607225278, 1426881987, 1925078388, 2162078206, 2614888103,
   3248222580, 3835390401, 4022224774, 264347078, 604807628,
   770255983, 1249150122, 1555081692, 1996064986, 2554220882,
   2821834349, 2952996808, 3210313671, 3336571891, 3584528711,
   113926993, 338241895, 666307205, 773529912, 1294757372,
   1396182291, 1695183700, 1986661051, 2177026350, 2456956037,
   2730485921, 2820302411, 3259730800, 3345764771, 3516065817,
   3600352804, 4094571909, 275423344, 430227734, 506948616,
   659060556, 883997877, 958139571, 1322822218, 1537002063,
   1747873779, 1955562222, 2024104815, 2227730452, 2361852424,
   2428436474, 2756734187, 3204031479, 3329325298]

/-- State of the eight SHA-256 working variables. -/
structure Sha256State where
  a : Nat
  b : Nat
  c : Nat
  d : Nat
  e : Nat
  f : Nat
  g : Nat
  h : Nat

/-- Big-endian bytes of a 32-bit word. -/
def be32 (w : Nat) : List Nat := [w / 16777216 % 256, w / 65536 % 256, w / 256 % 256, w % 256]

/-- Big-endian bytes of a 64-bit length field. -/
def be64 (n : Nat) : List Nat :=
  [n / 2 ^ 56 % 256, n / 2 ^ 48 % 256, n / 2 ^ 40 % 256, n / 2 ^ 32 % 256,
   n / 2 ^ 24 % 256, n / 2 ^ 16 % 256, n / 2 ^ 8 % 256, n % 256]

/-- Big-endian 32-bit words from a byte list (incomplete tail ignored; the
input is always block-aligned). -/
def bytesToWords : List Nat → List Nat
  | a :: b :: c :: d :: rest => (a * 16777216 + b * 65536 + c * 256 + d) :: bytesToWords rest
  | _ => []

/-- SHA-256 message padding: a 0x80 byte, zeros to 56 mod 64, then the
64-bit big-endian bit length. -/
def padMessage (m : List Nat) : List Nat :=
  let L := m.length
  let z := (55 + 64 - L % 64) % 64
  m ++ 128 :: List.replicate z 0 ++ be64 (8 * L)

/-- Split a byte list into 64-byte blocks. -/
def chunk64 : List Nat → List (List Nat)
  | [] => []
  | b :: rest => (b :: rest).take 64 :: chunk64 ((b :: rest).drop 64)
termination_by l => l.length
decreasing_by simp [List.length_drop]; omega

/-- One schedule-extension step, appending W[t] for the current length t. -/
def extendSchedule (w : List Nat) : List Nat :=
  w ++ [w32 (shaSmallSigma1 (w.getD (w.length - 2) 0) + w.getD (w.length - 7) 0 +
             shaSmallSigma0 (w.getD (w.length - 15) 0) + w.getD (w.length - 16) 0)]

/-- The 64-entry message schedule from the 16 block words. -/
def schedule (w16 : List Nat) : List Nat := (List.range 48).foldl (fun w _ => extendSchedule w) w16

/-- One SHA-256 round on the working variables, consuming one (K, W) pair. -/
def shaRound (st : Sha256State) (kw : Nat × Nat) : Sha256State :=
  let t1 := w32 (st.h + shaBigSigma1 st.e + ((st.e &&& st.f) ^^^ (not32 st.e &&& st.g)) + kw.1 + kw.2)
  let t2 := w32 (shaBigSigma0 st.a + ((st.a &&& st.b) ^^^ (st.a &&& st.c) ^^^ (st.b &&& st.c)))
  ⟨w32 (t1 + t2), st.a, st.b, st.c, w32 (st.d + t1), st.e, st.f, st.g⟩

/-- Compression of one 64-byte block into the running hash state. -/
def shaCompress (st : Sha256State) (block : List Nat) : Sha256State :=
  let r := (List.zip shaK (schedule (bytesToWords block))).foldl shaRound st
  ⟨w32 (st.a + r.a), w32 (st.b + r.b), w32 (st.c + r.c), w32 (st.d + r.d),
   w32 (st.e + r.e), w32 (st.f + r.f), w32 (st.g + r.g), w32 (st.h + r.h)⟩

/-- The SHA-256 initial hash value. -/
def shaInit : Sha256State :=
  ⟨1779033703, 3144134277, 1013904242,
   2773480762, 1359893119, 2600822924,
   528734635, 1541459225⟩

/-- SHA-256 of a byte list, as 32 bytes. -/
def sha256 (msg : List Nat) : List Nat :=
  let fin := (chunk64 (padMessage msg)).foldl shaCompress shaInit
  be32 fin.a ++ be32 fin.b ++ be32 fin.c ++ be32 fin.d ++
  be32 fin.e ++ be32 fin.f ++ be32 fin.g ++ be32 fin.h

/-- HMAC-SHA256 with byte-list key and message (the `crypto.subtle` HMAC
used by the source `hmac` helper). -/
def hmacSha256 (key msg : List Nat) : List Nat :=
  let k0 := if 64 < key.length then sha256 key else key
  let kp := k0 ++ List.replicate (64 - k0.length) 0
  sha256 ((kp.map (fun b => b ^^^ 92)) ++ sha256 ((kp.map (fun b => b ^^^ 54)) ++ msg))

/-! ## JSON values

JavaScript numbers are modeled as integers: every number this application
writes into a payload is a millisecond timestamp, and the parser below
accordingly implements the JSON integer grammar (fraction/exponent syntax
and non-integral doubles are outside the model). -/

inductive Js where
  | null : Js
  | bool : Bool → Js
  | num : Int → Js
  | str : String → Js
  | arr : List Js → Js
  | obj : List (String × Js) → Js

/-- Opening curly brace character. -/
def lbrace : Char := Char.ofNat 123

/-- Closing curly brace character. -/
def rbrace : Char := Char.ofNat 125

/-- Decimal digits of a natural number, least significant first (empty for 0). -/
def natDigitsRev : Nat → List Nat
  | 0 => []
  | n + 1 => (n + 1) % 10 :: natDigitsRev ((n + 1) / 10)
termination_by n => n
decreasing_by omega

/-- Decimal digit characters of a natural number, as printed by JS. -/
def natChars (n : Nat) : List Char :=
  if n = 0 then ['0'] else ((natDigitsRev n).map Nat.digitChar).reverse

/-- Decimal representation of an integer, as printed by JS for safe integers. -/
def intChars (i : Int) : List Char :=
  if i < 0 then '-' :: natChars i.natAbs else natChars i.toNat

/-- Escaping of one character inside a JSON string literal, exactly as
`JSON.stringify` emits it: the two mandatory escapes, the five shorthand
control escapes, `\u00xx` (lowercase hex) for other control characters, and
everything else verbatim. -/
def escChar (c : Char) : List Char :=
  if c = '"' then ['\\', '"']
  else if c = '\\' then ['\\', '\\']
  else if c.toNat = 8 then ['\\', 'b']
  else if c.toNat = 9 then ['\\', 't']
  else if c.toNat = 10 then ['\\', 'n']
  else if c.toNat = 12 then ['\\', 'f']
  else if c.toNat = 13 then ['\\', 'r']
  else if c.toNat < 32 then
    ['\\', 'u', '0', '0', Nat.digitChar (c.toNat / 16), Nat.digitChar (c.toNat % 16)]
  else [c]

/-- Escaping of a character list. -/
def escChars : List Char → List Char
  | [] => []
  | c :: cs => escChar c ++ escChars cs

/-- A JSON string literal with its quotes. -/
def quoteChars (s : String) : List Char := '"' :: escChars s.data ++ ['"']

/-- Comma-join of pre-rendered pieces. -/
def joinComma : List (List Char) → List Char
  | [] => []
  | [x] => x
  | x :: y :: rest => x ++ ',' :: joinComma (y :: rest)

/-- Characters of the `null` literal. -/
def nullChars : List Char := ['n', 'u', 'l', 'l']

/-- Characters of the `true` literal. -/
def trueChars : List Char := ['t', 'r', 'u', 'e']

/-- Characters of the `false` literal. -/
def falseChars : List Char := ['f', 'a', 'l', 's', 'e']

mutual

/-- Model of `JSON.stringify` (object keys in insertion order, no added
whitespace). -/
def stringifyJs : Js → List Char
  | .null => nullChars
  | .bool true => trueChars
  | .bool false => falseChars
  | .num i => intChars i
  | .str s => quoteChars s
  | .arr l => '[' :: joinComma (stringifyList l) ++ [']']
  | .obj fs => lbrace :: joinComma (stringifyMembers fs) ++ [rbrace]

/-- Rendered elements of an array. -/
def stringifyList : List Js → List (List Char)
  | [] => []
  | v :: vs => stringifyJs v :: stringifyList vs

/-- Rendered `"key":value` members of an object. -/
def stringifyMembers : List (String × Js) → List (List Char)
  | [] => []
  | (k, v) :: fs => (quoteChars k ++ ':' :: stringifyJs v) :: stringifyMembers fs

end

/-- Model of `JSON.stringify` returning a string. -/
def stringifyStr (j : Js) : String := String.mk (stringifyJs j)

/-! ## JSON parsing (JSON.parse) -/

/-- JSON whitespace. -/
def isWsChar (c : Char) : Bool := c == ' ' || c == '\t' || c == '\n' || c == '\r'

/-- Leading-whitespace removal. -/
def skipWs : List Char → List Char
  | [] => []
  | c :: r => if isWsChar c then skipWs r else c :: r

/-- ASCII decimal digit test. -/
def isDigitChar (c : Char) : Bool := decide (48 ≤ c.toNat ∧ c.toNat ≤ 57)

/-- Value of a decimal digit character. -/
def digitValC (c : Char) : Nat := c.toNat - 48

/-- Value of a hexadecimal digit character (either case). -/
def hexValC (c : Char) : Option Nat :=
  if 48 ≤ c.toNat ∧ c.toNat ≤ 57 then some (c.toNat - 48)
  else if 97 ≤ c.toNat ∧ c.toNat ≤ 102 then some (c.toNat - 87)
  else if 65 ≤ c.toNat ∧ c.toNat ≤ 70 then some (c.toNat - 55)
  else none

/-- Scalar value for a `\uXXXX` escape. A code in the surrogate range
becomes U+FFFD: JS would produce an unpaired UTF-16 unit there, which Lean
strings cannot represent; the application never emits such escapes. -/
def charOfCode (n : Nat) : Char :=
  if 55296 ≤ n ∧ n < 57344 then replChar else Char.ofNat n

/-- Body of a JSON string literal after the opening quote, with an
accumulator of characters read so far (in reverse).  Implements the JSON
escape grammar, combining surrogate-pair `\u` escapes into one scalar
value.  Unescaped control characters are a parse error, as in `JSON.parse`. -/
def parseJStringAux (acc : List Char) : List Char → Option (String × List Char)
  | [] => none
  | c :: r =>
    if c = '"' then some (String.mk acc.reverse, r)
    else if c = '\\' then
      match r with
      | [] => none
      | e :: r2 =>
        if e = '"' then parseJStringAux ('"' :: acc) r2
        else if e = '\\' then parseJStringAux ('\\' :: acc) r2
        else if e = '/' then parseJStringAux ('/' :: acc) r2
        else if e = 'b' then parseJStringAux (Char.ofNat 8 :: acc) r2
        else if e = 'f' then parseJStringAux (Char.ofNat 12 :: acc) r2
        else if e = 'n' then parseJStringAux (Char.ofNat 10 :: acc) r2
        else if e = 'r' then parseJStringAux (Char.ofNat 13 :: acc) r2
        else if e = 't' then parseJStringAux (Char.ofNat 9 :: acc) r2
        else if e = 'u' then
          match hexValC (r2.getD 0 'x'), hexValC (r2.getD 1 'x'),
                hexValC (r2.getD 2 'x'), hexValC (r2.getD 3 'x') with
          | some v1, some v2, some v3, some v4 =>
            let code := v1 * 4096 + v2 * 256 + v3 * 16 + v4
            if 55296 ≤ code ∧ code < 56320 then
              if r2.getD 4 'x' = '\\' ∧ r2.getD 5 'x' = 'u' then
                match hexValC (r2.getD 6 'x'), hexValC (r2.getD 7 'x'),
                      hexValC (r2.getD 8 'x'), hexValC (r2.getD 9 'x') with
                | some u1, some u2, some u3, some u4 =>
                  let low := u1 * 4096 + u2 * 256 + u3 * 16 + u4
                  if 56320 ≤ low ∧ low < 57344 then
                    parseJStringAux
                      (Char.ofNat (65536 + (code - 55296) * 1024 + (low - 56320)) :: acc)
                      (r2.drop 10)
                  else parseJStringAux (replChar :: acc) (r2.drop 4)
                | _, _, _, _ => parseJStringAux (replChar :: acc) (r2.drop 4)
              else parseJStringAux (replChar :: acc) (r2.drop 4)
            else parseJStringAux (charOfCode code :: acc) (r2.drop 4)
          | _, _, _, _ => none
        else none
    else if c.toNat < 32 then none
    else parseJStringAux (c :: acc) r
termination_by l => l.length
decreasing_by all_goals (simp [List.length_cons, List.length_drop]; try omega)

/-- Digit run with most-significant-first accumulation. -/
def parseDigitsAux (acc : Nat) : List Char → Nat × List Char
  | [] => (acc, [])
  | c :: r => if isDigitChar c then parseDigitsAux (acc * 10 + digitValC c) r else (acc, c :: r)

/-- Unsigned JSON integer: one-or-more digits, a leading zero only for the
number 0 itself (the JSON grammar). -/
def parsePosIntAux : List Char → Option (Nat × List Char)
  | [] => none
  | c :: r =>
    if c = '0' then
      match r with
      | c2 :: r2 => if isDigitChar c2 then none else some (0, c2 :: r2)
      | [] => some (0, [])
    else if isDigitChar c then some (parseDigitsAux (digitValC c) r)
    else none

/-- JSON number (integer grammar; see the module note on numbers). -/
def parseNumberFrom : List Char → Option (Js × List Char)
  | [] => none
  | c :: r =>
    if c = '-' then (parsePosIntAux r).map (fun p => (Js.num (-(p.1 : Int)), p.2))
    else (parsePosIntAux (c :: r)).map (fun p => (Js.num ((p.1 : Int)), p.2))

/-- Adding a member in front of later members, with the JS duplicate-key
rule: the first occurrence fixes the position, the last fixes the value. -/
def consMember (k : String) (v : Js) (ms : List (String × Js)) : List (String × Js) :=
  match ms.lookup k with
  | some v2 => (k, v2) :: ms.eraseP (fun kv => kv.1 == k)
  | none => (k, v) :: ms

/-- Members of a JSON object after the opening brace (at least one member),
parameterized by the value parser of the enclosing nesting level; the fuel
bounds the number of members. -/
def parseMembersF (pv : List Char → Option (Js × List Char)) :
    Nat → List Char → Option (List (String × Js) × List Char)
  | 0, _ => none
  | g + 1, cs =>
    match skipWs cs with
    | c0 :: r =>
      if c0 = '"' then
        match parseJStringAux [] r with
        | some (k, r2) =>
          match skipWs r2 with
          | c1 :: r3 =>
            if c1 = ':' then
                  match pv r3 with
              | some (v, r4) =>
                match skipWs r4 with
                | c :: r5 =>
                  if c = ',' then
                    match parseMembersF pv g r5 with
                    | some (ms, r6) => some (consMember k v ms, r6)
                    | none => none
                  else if c = rbrace then some ([(k, v)], r5)
                  else none
                | [] => none
              | none => none
            else none
          | [] => none
        | none => none
      else none
    | [] => none

/-- Items of a JSON array after the opening bracket (at least one item). -/
def parseItemsF (pv : List Char → Option (Js × List Char)) :
    Nat → List Char → Option (List Js × List Char)
  | 0, _ => none
  | g + 1, cs =>
    match pv cs with
    | some (v, r) =>
      match skipWs r with
      | c :: r2 =>
        if c = ',' then
          match parseItemsF pv g r2 with
          | some (vs, r3) => some (v :: vs, r3)
          | none => none
        else if c = ']' then some ([v], r2)
        else none
      | [] => none
    | none => none

/-- A JSON value; the fuel bounds nesting depth and per-level member count
and is instantiated generously by `jsonParse`. -/
def parseValue : Nat → List Char → Option (Js × List Char)
  | 0, _ => none
  | f + 1, cs =>
    match skipWs cs with
    | [] => none
    | c :: r =>
      if c = 'n' then
        if r.getD 0 'x' = 'u' ∧ r.getD 1 'x' = 'l' ∧ r.getD 2 'x' = 'l' then
          some (Js.null, r.drop 3)
        else none
      else if c = 't' then
        if r.getD 0 'x' = 'r' ∧ r.getD 1 'x' = 'u' ∧ r.getD 2 'x' = 'e' then
          some (Js.bool true, r.drop 3)
        else none
      else if c = 'f' then
        if r.getD 0 'x' = 'a' ∧ r.getD 1 'x' = 'l' ∧ r.getD 2 'x' = 's' ∧ r.getD 3 'x' = 'e' then
          some (Js.bool false, r.drop 4)
        else none
      else if c = '"' then (parseJStringAux [] r).map (fun p => (Js.str p.1, p.2))
      else if c = lbrace then
        match skipWs r with
        | c2 :: r2 =>
          if c2 = rbrace then some (Js.obj [], r2)
          else
            match parseMembersF (parseValue f) f (c2 :: r2) with
            | some (ms, r3) => some (Js.obj ms, r3)
            | none => none
        | [] => none
      else if c = '[' then
        match skipWs r with
        | c2 :: r2 =>
          if c2 = ']' then some (Js.arr [], r2)
          else
            match parseItemsF (parseValue f) f (c2 :: r2) with
            | some (vs, r3) => some (Js.arr vs, r3)
            | none => none
        | [] => none
      else if c = '-' ∨ isDigitChar c then parseNumberFrom (c :: r)
      else none

/-- Model of `JSON.parse`: parse one value, allow trailing whitespace only;
`none` models the thrown `SyntaxError`. -/
def jsonParse (s : String) : Option Js :=
  match parseValue (s.data.length + 1) s.data with
  | some (v, rest) =>
    match skipWs rest with
    | [] => some v
    | _ => none
  | none => none

/-! ## Session payload and token codec (src/src/lib/session.ts) -/

/-- The `user` record carried by a session (`{ name: string }`). -/
structure UserRef where
  name : String
deriving DecidableEq

/-- The source type `SessionPayload`: `{ user: { name: string } | null,
expires: number }` with `expires` in ms since epoch. -/
structure SessionPayload where
  user : Option UserRef
  expires : Int
deriving DecidableEq

/-- The JSON value of a `SessionPayload`, with the object-literal key order
`user`, `expires` that `JSON.stringify` preserves. -/
def payloadJson (p : SessionPayload) : Js :=
  Js.obj [("user", match p.user with
                   | none => Js.null
                   | some u => Js.obj [("name", Js.str u.name)]),
          ("expires", Js.num p.expires)]

/-- Reading a `SessionPayload` back out of its JSON value.  This is a
spec-side interpretation used to state the round-trip property
"field-for-field"; the source performs no such shape check (it casts). -/
def sessionPayloadOfJs : Js → Option SessionPayload
  | Js.obj [("user", u), ("expires", Js.num e)] =>
    match u with
    | Js.null => some ⟨none, e⟩
    | Js.obj [("name", Js.str s)] => some ⟨some ⟨s⟩, e⟩
    | _ => none
  | _ => none

/-- The process-wide signing secret.  The source reads
`process.env.SESSION_SECRET` and falls back to this development constant;
the environment is not modeled, so the model uses the fallback (no proof
below depends on the value). -/
def sessionSecret : String := "dev-secret-change-me"

/-- The source `hmac` helper on the character list of the data string:
HMAC-SHA256 keyed by the UTF-8 bytes of the secret. -/
def hmacChars (data : List Char) : List Nat :=
  hmacSha256 (utf8Encode sessionSecret) (utf8EncodeList data)

/-- The fixed JWT header object `{ alg: "HS256", typ: "JWT" }`. -/
def headerJson : Js := Js.obj [("alg", Js.str "HS256"), ("typ", Js.str "JWT")]

/-- Characters of the base64url-encoded header segment. -/
def encHeaderChars : List Char := b64urlChars (utf8EncodeList (stringifyJs headerJson))

/-- Characters of the base64url-encoded payload segment of a JSON value. -/
def encPayloadChars (j : Js) : List Char := b64urlChars (utf8EncodeList (stringifyJs j))

/-- The signing input `header.payload` of the source `encrypt`. -/
def signingInputChars (j : Js) : List Char := encHeaderChars ++ '.' :: encPayloadChars j

/-- Characters of the base64url-encoded signature segment. -/
def encSigChars (j : Js) : List Char := b64urlChars (hmacChars (signingInputChars j))

/-- The source `encrypt` on an arbitrary (type-erased) JSON payload value;
TypeScript erases the `SessionPayload` annotation, so this is the function
the runtime actually runs. -/
def encryptJs (j : Js) : String :=
  String.mk (signingInputChars j ++ '.' :: encSigChars j)

/-- The source `encrypt` on a typed `SessionPayload`. -/
def encrypt (p : SessionPayload) : String := encryptJs (payloadJson p)

/-- Splitting on `.` as `token.split(".")` does (empty segments kept). -/
def splitOnDot : List Char → List (List Char)
  | [] => [[]]
  | c :: rest =>
    if c = '.' then [] :: splitOnDot rest
    else
      match splitOnDot rest with
      | h :: t => (c :: h) :: t
      | [] => [[c]]

/-- The source `decrypt`.  Its return type `SessionPayload | null` is one
JavaScript value space, modeled as `Js` with `Js.null` for the `null`
returned on any failure (so a token whose payload segment is the JSON text
`null` is indistinguishable from a rejected token, exactly as in the
source).  The `try/catch` makes it total: `none` from `jsonParse` (a thrown
SyntaxError) becomes `Js.null`. -/
def decrypt (token : String) : Js :=
  match splitOnDot token.data with
  | [h, p, s] =>
    if b64urlChars (hmacChars (h ++ '.' :: p)) = s then
      match jsonParse (utf8Decode (b64urlDecode (String.mk p))) with
      | some v => v
      | none => Js.null
    else Js.null
  | _ => Js.null

/-! ## JavaScript value dynamics used by the lifecycle functions -/

/-- JS falsiness of a JSON value (`!x`): null, false, 0 and the empty
string are falsy; arrays and objects are always truthy. -/
def falsy : Js → Bool
  | Js.null => true
  | Js.bool b => !b
  | Js.num n => n == 0
  | Js.str s => s == ""
  | Js.arr _ => false
  | Js.obj _ => false

/-- Property access `j.k` (`none` models `undefined`; non-objects have no
own properties among JSON values). -/
def getField (j : Js) (k : String) : Option Js :=
  match j with
  | Js.obj fs => fs.lookup k
  | _ => none

/-- JS `Number(...)` coercion of a numeric string, integer grammar with
surrounding whitespace and an optional sign; `none` is NaN.  Fractional,
hex and exponent forms are outside the model (never produced by this
application). -/
def strToNumberInt (s : String) : Option Int :=
  let core := ((s.data.dropWhile isWsChar).reverse.dropWhile isWsChar).reverse
  match core with
  | [] => some 0
  | c :: ds =>
    if c = '-' then
      if ds ≠ [] ∧ ds.all isDigitChar then some (-((parseDigitsAux 0 ds).1 : Int)) else none
    else if c = '+' then
      if ds ≠ [] ∧ ds.all isDigitChar then some ((parseDigitsAux 0 ds).1 : Int) else none
    else if (c :: ds).all isDigitChar then some ((parseDigitsAux 0 (c :: ds)).1 : Int)
    else none

/-- JS ToNumber on a JSON value (`none` is NaN).  Arrays and objects
coerce through ToPrimitive in JS; that path is modeled as NaN and is never
reached by server-issued tokens. -/
def toNumber : Js → Option Int
  | Js.null => some 0
  | Js.bool b => some (if b then 1 else 0)
  | Js.num n => some n
  | Js.str s => strToNumberInt s
  | Js.arr _ => none
  | Js.obj _ => none

/-- The comparison `payload.expires < now`: `undefined` or NaN compare as
false. -/
def expiresLtNow (payload : Js) (now : Int) : Bool :=
  match getField payload "expires" with
  | none => false
  | some v =>
    match toNumber v with
    | none => false
    | some e => decide (e < now)

/-- The subtraction `payload.expires - Date.now()` (`none` is NaN). -/
def remainingOf (payload : Js) (now : Int) : Option Int :=
  match getField payload "expires" with
  | none => none
  | some v => (toNumber v).map (fun e => e - now)

/-! ## Session lifecycle (getSession, updateSession, login, logout) -/

/-- A queued `cookies().set` / `res.cookies.set` call.  The `secure` flag
of the source depends on `process.env.NODE_ENV` and is not modeled. -/
structure SetCookie where
  value : String
  httpOnly : Bool
  path : String
  sameSite : String
  maxAge : Int
deriving DecidableEq

/-- The attribute set used for the session cookie by both `login` and
`updateSession`: http-only, path `/`, same-site lax, max-age 600 s. -/
def sessionCookieOpts (v : String) : SetCookie := ⟨v, true, "/", "lax", 600⟩

/-- The source `getSession`.  The cookie jar is the `Option String`
argument (value of the `session` cookie if present); `Date.now()` is the
`now` argument.  `Js.null` is the returned `null`; note `!token` also
treats an empty cookie value as absent. -/
def getSession (cookie : Option String) (now : Int) : Js :=
  match cookie with
  | none => Js.null
  | some token =>
    if token = "" then Js.null
    else
      let payload := decrypt token
      if falsy payload then Js.null
      else if expiresLtNow payload now then Js.null
      else payload

/-- The object spread `{ ...payload, expires: v }` of the refresh step: on
an object, replace the `expires` member in place (or append it); on a
non-object the spread contributes no members (string own-index properties
are not modeled; unreachable for signed tokens). -/
def setKeyField : List (String × Js) → String → Js → List (String × Js)
  | [], k, v => [(k, v)]
  | (k2, v2) :: fs, k, v =>
    if k2 = k then (k2, v) :: fs else (k2, v2) :: setKeyField fs k v

/-- Spread-and-override used to build the refreshed payload. -/
def spreadSetExpires (j : Js) (v : Int) : Js :=
  match j with
  | Js.obj fs => Js.obj (setKeyField fs "expires" (Js.num v))
  | _ => Js.obj [("expires", Js.num v)]

/-- The source `updateSession`: reads the request's session cookie; absent
or falsy-decoded tokens cause no response (`none`); a remaining TTL below
two minutes causes a refreshed token with `expires = now + 600000` to be
attached to the outgoing response with the login cookie attributes.  A NaN
`remaining` (no numeric `expires`) fails the `<` test, hence no change. -/
def updateSession (cookie : Option String) (now : Int) : Option SetCookie :=
  match cookie with
  | none => none
  | some token =>
    if token = "" then none
    else
      let payload := decrypt token
      if falsy payload then none
      else
        match remainingOf payload now with
        | none => none
        | some remaining =>
          if remaining < 120000 then
            some (sessionCookieOpts (encryptJs (spreadSetExpires payload (now + 600000))))
          else none

/-- The cookie state of the request after one `updateSession` call is
applied to it (used to state repeated-call idempotence): a returned
response replaces the cookie value, no response leaves it unchanged. -/
def applyUpdate (now : Int) (cookie : Option String) : Option String :=
  match updateSession cookie now with
  | some sc => some sc.value
  | none => cookie

/-- The source `login` on the two posted fields.  `Except.error` models the
thrown `Error("Invalid credentials")` (no cookie mutation happens in that
case: the throw precedes the cookie write); `Except.ok` carries the queued
session-cookie write. -/
def login (username password : String) (now : Int) : Except String SetCookie :=
  if username ≠ "admin" ∨ password ≠ "password" then Except.error "Invalid credentials"
  else Except.ok (sessionCookieOpts (encrypt ⟨some ⟨"Admin"⟩, now + 600000⟩))

/-- The source `logout`: the session cookie is deleted, i.e. the resulting
cookie state is absent. -/
def logout : Option String := none

/-! ## Protected page and flash channel (src/src/app/protected/page.tsx) -/

/-- Strings of a parsed flash array, in order (`parsed.filter(x => typeof x
=== "string")`). -/
def filterStringsJs : List Js → List String
  | [] => []
  | Js.str s :: rest => s :: filterStringsJs rest
  | _ :: rest => filterStringsJs rest

/-- Reading the flash cookie into a string list: absent or empty value
(the `|| null` coalescing) gives `[]`; a JSON array keeps its strings; a
JSON string is a singleton; other JSON values give `[]`; non-JSON raw
values are one legacy entry. -/
def parseFlashList (raw : Option String) : List String :=
  match raw with
  | none => []
  | some s =>
    if s = "" then []
    else
      match jsonParse s with
      | some (Js.arr xs) => filterStringsJs xs
      | some (Js.str t) => [t]
      | some _ => []
      | none => [s]

/-- The truthiness of `session?.user` used as the authentication gate. -/
def sessionUserTruthy (session : Js) : Bool :=
  match getField session "user" with
  | none => false
  | some u => !falsy u

/-- Outcome of rendering the protected page. -/
inductive PageResult where
  | redirect : String → PageResult
  | render : List String → PageResult
deriving DecidableEq

/-- The protected page component: redirects to `/` unless `session?.user`
is truthy, otherwise renders the flash items. -/
def protectedPage (sessionCookie flashCookie : Option String) (now : Int) : PageResult :=
  let session := getSession sessionCookie now
  if !sessionUserTruthy session then PageResult.redirect "/"
  else PageResult.render (parseFlashList flashCookie)

/-- The list manipulation of `saveAction`: push the entry, then cap to the
last 10 entries (`list.slice(-10)`) when the length exceeds 10. -/
def appendFlash (list : List String) (entry : String) : List String :=
  let l := list ++ [entry]
  if 10 < l.length then l.drop (l.length - 10) else l

/-- Effects of the `saveAction` server action: the flash cookie write (if
any) and the redirect target. -/
structure SaveResult where
  flashSet : Option SetCookie
  redirectTo : String
deriving DecidableEq

/-- The attribute set of the flash cookie write: non-http-only, path `/`,
same-site lax, max-age 60 s. -/
def flashCookieOpts (v : String) : SetCookie := ⟨v, false, "/", "lax", 60⟩

/-- The `saveAction` server action.  `timeStr` is the formatted local time
interpolated into the entry (`Date.toLocaleTimeString` is not modeled).
Unauthenticated requests redirect to `/` without touching the flash
cookie; otherwise the capped list is re-serialized and written back and
the action redirects to `/protected`. -/
def saveAction (sessionCookie flashCookie : Option String) (now : Int) (timeStr : String) :
    SaveResult :=
  let session := getSession sessionCookie now
  if !sessionUserTruthy session then ⟨none, "/"⟩
  else
    let list := parseFlashList flashCookie
    let entry := "Saved at " ++ timeStr
    let newList := appendFlash list entry
    ⟨some (flashCookieOpts (stringifyStr (Js.arr (newList.map Js.str)))), "/protected"⟩

/-! ## Lemmas: characters and UTF-8 -/

/-- Scalar-value range of a Lean character (no surrogates, below 0x110000). -/
theorem char_range (c : Char) : c.toNat < 55296 ∨ (57343 < c.toNat ∧ c.toNat < 1114112) := by
  have h := c.valid
  unfold UInt32.isValidChar Nat.isValidChar at h
  exact h

/-- Rebuilding a string from its character list. -/
theorem stringMk_data (s : String) : String.mk s.data = s := by
  cases s
  rfl

/-- UTF-8 encodings consist of bytes. -/
theorem utf8EncodeChar_lt (c : Char) : ∀ b ∈ utf8EncodeChar c, b < 256 := by
  have hr := char_range c
  simp only [utf8EncodeChar]
  split_ifs with h1 h2 h3 <;> intro b hb <;>
    simp only [List.mem_cons, List.not_mem_nil, or_false] at hb <;> omega

/-- UTF-8 encodings of character lists consist of bytes. -/
theorem utf8EncodeList_lt (l : List Char) : ∀ b ∈ utf8EncodeList l, b < 256 := by
  induction l with
  | nil => intro b hb; simp [utf8EncodeList] at hb
  | cons c cs ih =>
    intro b hb
    simp only [utf8EncodeList, List.mem_append] at hb
    rcases hb with hb | hb
    · exact utf8EncodeChar_lt c b hb
    · exact ih b hb

/-- Decoding consumes the encoding of one character and yields it back. -/
theorem utf8Decode_encodeChar (c : Char) (rest : List Nat) :
    utf8DecodeList (utf8EncodeChar c ++ rest) = c :: utf8DecodeList rest := by
  have hr := char_range c
  have hof := Char.ofNat_toNat c
  simp only [utf8EncodeChar]
  by_cases h1 : c.toNat < 128
  · rw [if_pos h1]
    show utf8DecodeList (c.toNat :: rest) = _
    rw [utf8DecodeList.eq_def]
    dsimp only
    rw [if_pos h1, hof]
  · rw [if_neg h1]
    by_cases h2 : c.toNat < 2048
    · rw [if_pos h2]
      show utf8DecodeList ((192 + c.toNat / 64) :: (128 + c.toNat % 64) :: rest) = _
      rw [utf8DecodeList.eq_def]
      dsimp only
      simp only [List.getD_cons_zero, List.getD_cons_succ, List.drop_succ_cons, List.drop_zero]
      rw [if_neg (by omega), if_neg (by omega), if_pos (by omega)]
      have hc : contByte (128 + c.toNat % 64) = true := by
        simp only [contByte, decide_eq_true_eq]
        omega
      rw [if_pos hc]
      have hv : (192 + c.toNat / 64 - 192) * 64 + (128 + c.toNat % 64 - 128) = c.toNat := by
        omega
      rw [hv, hof]
    · rw [if_neg h2]
      by_cases h3 : c.toNat < 65536
      · rw [if_pos h3]
        show utf8DecodeList ((224 + c.toNat / 4096) :: (128 + c.toNat / 64 % 64) ::
          (128 + c.toNat % 64) :: rest) = _
        rw [utf8DecodeList.eq_def]
        dsimp only
        simp only [List.getD_cons_zero, List.getD_cons_succ, List.drop_succ_cons, List.drop_zero]
        rw [if_neg (by omega), if_neg (by omega), if_neg (by omega), if_pos (by omega)]
        have hv3 : valid3 (224 + c.toNat / 4096) (128 + c.toNat / 64 % 64) (128 + c.toNat % 64)
            = true := by
          simp only [valid3, decide_eq_true_eq]
          rcases hr with hr | ⟨hr1, hr2⟩ <;>
            refine ⟨by omega, by omega, ?_, ?_⟩ <;> intro he <;> omega
        rw [if_pos hv3]
        have hv : (224 + c.toNat / 4096 - 224) * 4096 + (128 + c.toNat / 64 % 64 - 128) * 64 +
            (128 + c.toNat % 64 - 128) = c.toNat := by omega
        rw [hv, hof]
      · rw [if_neg h3]
        show utf8DecodeList ((240 + c.toNat / 262144) :: (128 + c.toNat / 4096 % 64) ::
          (128 + c.toNat / 64 % 64) :: (128 + c.toNat % 64) :: rest) = _
        have hub : c.toNat < 1114112 := by rcases hr with hr | ⟨hr1, hr2⟩ <;> omega
        rw [utf8DecodeList.eq_def]
        dsimp only
        simp only [List.getD_cons_zero, List.getD_cons_succ, List.drop_succ_cons, List.drop_zero]
        rw [if_neg (by omega), if_neg (by omega), if_neg (by omega), if_neg (by omega),
          if_pos (by omega)]
        have hv4 : valid4 (240 + c.toNat / 262144) (128 + c.toNat / 4096 % 64)
            (128 + c.toNat / 64 % 64) (128 + c.toNat % 64) = true := by
          simp only [valid4, decide_eq_true_eq]
          refine ⟨by omega, by omega, by omega, ?_, ?_⟩ <;> intro he <;> omega
        rw [if_pos hv4]
        have hv : (240 + c.toNat / 262144 - 240) * 262144 + (128 + c.toNat / 4096 % 64 - 128) *
            4096 + (128 + c.toNat / 64 % 64 - 128) * 64 + (128 + c.toNat % 64 - 128)
            = c.toNat := by omega
        rw [hv, hof]

/-- UTF-8 round trip on character lists. -/
theorem utf8DecodeList_encodeList (l : List Char) : utf8DecodeList (utf8EncodeList l) = l := by
  induction l with
  | nil => rw [show utf8EncodeList [] = [] from rfl, utf8DecodeList]
  | cons c cs ih =>
    show utf8DecodeList (utf8EncodeChar c ++ utf8EncodeList cs) = _
    rw [utf8Decode_encodeChar, ih]

/-- UTF-8 round trip: `TextDecoder` inverts `TextEncoder` on well-formed
strings. -/
theorem utf8Decode_encode (s : String) : utf8Decode (utf8Encode s) = s := by
  unfold utf8Decode utf8Encode
  rw [utf8DecodeList_encodeList, stringMk_data]

/-! ## Lemmas: base64url -/

/-- Facts about the 64 alphabet characters, by enumeration: the URL-safe
replacement is undone exactly, the 6-bit value is recovered, no alphabet
character is padding, and no URL-safe character is a dot. -/
theorem b64CharOf_facts : ∀ v, v < 64 →
    stdOfUrlChar (urlSafeChar (b64CharOf v)) = b64CharOf v ∧
    b64ValOf (b64CharOf v) = some v ∧
    b64CharOf v ≠ '=' ∧
    urlSafeChar (b64CharOf v) ≠ '.' := by decide

/-- Projection of `b64CharOf_facts`: the URL-safe replacement round trip. -/
theorem b64T_eq (v : Nat) (h : v < 64) :
    stdOfUrlChar (urlSafeChar (b64CharOf v)) = b64CharOf v := (b64CharOf_facts v h).1

/-- Projection of `b64CharOf_facts`: the 6-bit value is recovered. -/
theorem b64ValOf_b64CharOf (v : Nat) (h : v < 64) :
    b64ValOf (b64CharOf v) = some v := (b64CharOf_facts v h).2.1

/-- Projection of `b64CharOf_facts`: alphabet characters survive the `=`
filter. -/
theorem b64CharOf_ne_pad (v : Nat) (h : v < 64) : (b64CharOf v != '=') = true := by
  simpa [bne_iff_ne] using (b64CharOf_facts v h).2.2.1

/-- Projection of `b64CharOf_facts`: URL-safe characters are never dots. -/
theorem urlSafe_b64CharOf_ne_dot (v : Nat) (h : v < 64) :
    urlSafeChar (b64CharOf v) ≠ '.' := (b64CharOf_facts v h).2.2.2

/-- Padding characters are skipped by the lenient decoder. -/
theorem filterMap_pad (k : Nat) : (List.replicate k '=').filterMap b64ValOf = [] := by
  induction k with
  | zero => rfl
  | succ n ih =>
    rw [List.replicate_succ, List.filterMap_cons, show b64ValOf '=' = none by decide, ih]

/-- Round trip of the whole decode pipeline (replace characters back, pad
with any number of `=`, skip non-alphabet characters, reassemble bytes)
over the encoder output. -/
theorem b64_pipeline : ∀ (bs : List Nat) (k : Nat), (∀ b ∈ bs, b < 256) →
    base64DecodeVals ((((base64EncodeGroups bs).filter (fun c => c != '=')).map
      (fun c => stdOfUrlChar (urlSafeChar c)) ++ List.replicate k '=').filterMap b64ValOf)
    = bs := by
  intro bs
  induction bs using base64EncodeGroups.induct with
  | case1 b1 b2 b3 rest ih =>
    intro k h
    have h1 : b1 < 256 := h b1 (by simp)
    have h2 : b2 < 256 := h b2 (by simp)
    have h3 : b3 < 256 := h b3 (by simp)
    rw [show base64EncodeGroups (b1 :: b2 :: b3 :: rest) =
      b64CharOf (b1 / 4) :: b64CharOf (b1 % 4 * 16 + b2 / 16) ::
      b64CharOf (b2 % 16 * 4 + b3 / 64) :: b64CharOf (b3 % 64) :: base64EncodeGroups rest
      from rfl]
    rw [List.filter_cons, if_pos (b64CharOf_ne_pad _ (by omega)),
        List.filter_cons, if_pos (b64CharOf_ne_pad _ (by omega)),
        List.filter_cons, if_pos (b64CharOf_ne_pad _ (by omega)),
        List.filter_cons, if_pos (b64CharOf_ne_pad _ (by omega))]
    rw [List.map_cons, List.map_cons, List.map_cons, List.map_cons]
    rw [b64T_eq _ (by omega), b64T_eq _ (by omega), b64T_eq _ (by omega), b64T_eq _ (by omega)]
    rw [List.cons_append, List.cons_append, List.cons_append, List.cons_append]
    rw [List.filterMap_cons, b64ValOf_b64CharOf _ (by omega)]
    rw [List.filterMap_cons, b64ValOf_b64CharOf _ (by omega)]
    rw [List.filterMap_cons, b64ValOf_b64CharOf _ (by omega)]
    rw [List.filterMap_cons, b64ValOf_b64CharOf _ (by omega)]
    rw [show ∀ v1 v2 v3 v4 X, base64DecodeVals (v1 :: v2 :: v3 :: v4 :: X) =
      (v1 * 4 + v2 / 16) :: (v2 % 16 * 16 + v3 / 4) :: (v3 % 4 * 64 + v4) :: base64DecodeVals X
      from fun _ _ _ _ _ => rfl]
    rw [ih k (fun b hb => h b (by simp [hb]))]
    have e1 : b1 / 4 * 4 + (b1 % 4 * 16 + b2 / 16) / 16 = b1 := by omega
    have e2 : (b1 % 4 * 16 + b2 / 16) % 16 * 16 + (b2 % 16 * 4 + b3 / 64) / 4 = b2 := by omega
    have e3 : (b2 % 16 * 4 + b3 / 64) % 4 * 64 + b3 % 64 = b3 := by omega
    rw [e1, e2, e3]
  | case2 b1 b2 =>
    intro k h
    have h1 : b1 < 256 := h b1 (by simp)
    have h2 : b2 < 256 := h b2 (by simp)
    rw [show base64EncodeGroups [b1, b2] =
      [b64CharOf (b1 / 4), b64CharOf (b1 % 4 * 16 + b2 / 16), b64CharOf (b2 % 16 * 4), '=']
      from rfl]
    rw [List.filter_cons, if_pos (b64CharOf_ne_pad _ (by omega)),
        List.filter_cons, if_pos (b64CharOf_ne_pad _ (by omega)),
        List.filter_cons, if_pos (b64CharOf_ne_pad _ (by omega)),
        List.filter_cons, if_neg (by simp), List.filter_nil]
    rw [List.map_cons, List.map_cons, List.map_cons, List.map_nil]
    rw [b64T_eq _ (by omega), b64T_eq _ (by omega), b64T_eq _ (by omega)]
    rw [List.cons_append, List.cons_append, List.cons_append, List.nil_append]
    rw [List.filterMap_cons, b64ValOf_b64CharOf _ (by omega)]
    rw [List.filterMap_cons, b64ValOf_b64CharOf _ (by omega)]
    rw [List.filterMap_cons, b64ValOf_b64CharOf _ (by omega)]
    rw [filterMap_pad]
    rw [show ∀ v1 v2 v3, base64DecodeVals [v1, v2, v3] =
      [v1 * 4 + v2 / 16, v2 % 16 * 16 + v3 / 4] from fun _ _ _ => rfl]
    have e1 : b1 / 4 * 4 + (b1 % 4 * 16 + b2 / 16) / 16 = b1 := by omega
    have e2 : (b1 % 4 * 16 + b2 / 16) % 16 * 16 + b2 % 16 * 4 / 4 = b2 := by omega
    rw [e1, e2]
  | case3 b1 =>
    intro k h
    have h1 : b1 < 256 := h b1 (by simp)
    rw [show base64EncodeGroups [b1] =
      [b64CharOf (b1 / 4), b64CharOf (b1 % 4 * 16), '=', '='] from rfl]
    rw [List.filter_cons, if_pos (b64CharOf_ne_pad _ (by omega)),
        List.filter_cons, if_pos (b64CharOf_ne_pad _ (by omega)),
        List.filter_cons, if_neg (by simp), List.filter_cons, if_neg (by simp), List.filter_nil]
    rw [List.map_cons, List.map_cons, List.map_nil]
    rw [b64T_eq _ (by omega), b64T_eq _ (by omega)]
    rw [List.cons_append, List.cons_append, List.nil_append]
    rw [List.filterMap_cons, b64ValOf_b64CharOf _ (by omega)]
    rw [List.filterMap_cons, b64ValOf_b64CharOf _ (by omega)]
    rw [filterMap_pad]
    rw [show ∀ v1 v2, base64DecodeVals [v1, v2] = [v1 * 4 + v2 / 16] from fun _ _ => rfl]
    have e1 : b1 / 4 * 4 + b1 % 4 * 16 / 16 = b1 := by omega
    rw [e1]
  | case4 =>
    intro k h
    rw [show base64EncodeGroups [] = [] from rfl, List.filter_nil, List.map_nil,
      List.nil_append, filterMap_pad]
    rfl

/-- The source `b64urlDecode` inverts the source `b64url` on byte buffers. -/
theorem b64urlDecode_b64url (bs : List Nat) (h : ∀ b ∈ bs, b < 256) :
    b64urlDecode (b64url bs) = bs := by
  unfold b64urlDecode b64url b64urlChars
  rw [show (String.mk (((base64EncodeGroups bs).filter (fun c => c != '=')).map
    urlSafeChar)).data = ((base64EncodeGroups bs).filter (fun c => c != '=')).map urlSafeChar
    from rfl]
  rw [List.map_map]
  unfold base64DecodeChars
  exact b64_pipeline bs _ h

/-- Characters of the encoder output are padding or alphabet characters. -/
theorem base64EncodeGroups_mem : ∀ (bs : List Nat), (∀ b ∈ bs, b < 256) →
    ∀ c ∈ base64EncodeGroups bs, c = '=' ∨ ∃ v, v < 64 ∧ c = b64CharOf v := by
  intro bs
  induction bs using base64EncodeGroups.induct with
  | case1 b1 b2 b3 rest ih =>
    intro h c hc
    have h1 : b1 < 256 := h b1 (by simp)
    have h2 : b2 < 256 := h b2 (by simp)
    have h3 : b3 < 256 := h b3 (by simp)
    rw [show base64EncodeGroups (b1 :: b2 :: b3 :: rest) =
      b64CharOf (b1 / 4) :: b64CharOf (b1 % 4 * 16 + b2 / 16) ::
      b64CharOf (b2 % 16 * 4 + b3 / 64) :: b64CharOf (b3 % 64) :: base64EncodeGroups rest
      from rfl] at hc
    simp only [List.mem_cons] at hc
    rcases hc with rfl | rfl | rfl | rfl | hc
    · exact Or.inr ⟨_, by omega, rfl⟩
    · exact Or.inr ⟨_, by omega, rfl⟩
    · exact Or.inr ⟨_, by omega, rfl⟩
    · exact Or.inr ⟨_, by omega, rfl⟩
    · exact ih (fun b hb => h b (by simp [hb])) c hc
  | case2 b1 b2 =>
    intro h c hc
    have h1 : b1 < 256 := h b1 (by simp)
    have h2 : b2 < 256 := h b2 (by simp)
    rw [show base64EncodeGroups [b1, b2] =
      [b64CharOf (b1 / 4), b64CharOf (b1 % 4 * 16 + b2 / 16), b64CharOf (b2 % 16 * 4), '=']
      from rfl] at hc
    simp only [List.mem_cons, List.not_mem_nil, or_false] at hc
    rcases hc with rfl | rfl | rfl | rfl
    · exact Or.inr ⟨_, by omega, rfl⟩
    · exact Or.inr ⟨_, by omega, rfl⟩
    · exact Or.inr ⟨_, by omega, rfl⟩
    · exact Or.inl rfl
  | case3 b1 =>
    intro h c hc
    have h1 : b1 < 256 := h b1 (by simp)
    rw [show base64EncodeGroups [b1] =
      [b64CharOf (b1 / 4), b64CharOf (b1 % 4 * 16), '=', '='] from rfl] at hc
    simp only [List.mem_cons, List.not_mem_nil, or_false] at hc
    rcases hc with rfl | rfl | rfl | rfl
    · exact Or.inr ⟨_, by omega, rfl⟩
    · exact Or.inr ⟨_, by omega, rfl⟩
    · exact Or.inl rfl
    · exact Or.inl rfl
  | case4 =>
    intro h c hc
    rw [show base64EncodeGroups [] = [] from rfl] at hc
    exact absurd hc (List.not_mem_nil c)

/-- No character of a base64url encoding is a dot. -/
theorem b64urlChars_ne_dot (bs : List Nat) (h : ∀ b ∈ bs, b < 256) :
    ∀ c ∈ b64urlChars bs, c ≠ '.' := by
  unfold b64urlChars
  intro c hc
  simp only [List.mem_map, List.mem_filter] at hc
  obtain ⟨x, ⟨hx, hxpad⟩, rfl⟩ := hc
  rcases base64EncodeGroups_mem bs h x hx with rfl | ⟨v, hv, rfl⟩
  · simp at hxpad
  · exact urlSafe_b64CharOf_ne_dot v hv

/-- The first character of the base64url encoding of a nonempty byte list. -/
theorem b64urlChars_cons_head (b : Nat) (rest : List Nat) (h : b < 256) :
    ∃ t, b64urlChars (b :: rest) = urlSafeChar (b64CharOf (b / 4)) :: t := by
  unfold b64urlChars
  match rest with
  | [] =>
    simp only [show base64EncodeGroups [b] = [b64CharOf (b / 4), b64CharOf (b % 4 * 16), '=', '=']
      from rfl, List.filter_cons, b64CharOf_ne_pad (b / 4) (by omega), if_true, List.map_cons]
    exact ⟨_, rfl⟩
  | [b2] =>
    simp only [show base64EncodeGroups [b, b2] =
      [b64CharOf (b / 4), b64CharOf (b % 4 * 16 + b2 / 16), b64CharOf (b2 % 16 * 4), '=']
      from rfl, List.filter_cons, b64CharOf_ne_pad (b / 4) (by omega), if_true, List.map_cons]
    exact ⟨_, rfl⟩
  | b2 :: b3 :: r =>
    simp only [show base64EncodeGroups (b :: b2 :: b3 :: r) =
      b64CharOf (b / 4) :: b64CharOf (b % 4 * 16 + b2 / 16) ::
      b64CharOf (b2 % 16 * 4 + b3 / 64) :: b64CharOf (b3 % 64) :: base64EncodeGroups r
      from rfl, List.filter_cons, b64CharOf_ne_pad (b / 4) (by omega), if_true, List.map_cons]
    exact ⟨_, rfl⟩

/-! ## Lemmas: hash output shape and token splitting -/

/-- Big-endian word bytes are bytes. -/
theorem be32_mem_lt (w : Nat) : ∀ b ∈ be32 w, b < 256 := by
  intro b hb
  simp only [be32, List.mem_cons, List.not_mem_nil, or_false] at hb
  omega

/-- SHA-256 output consists of bytes. -/
theorem sha256_mem_lt (m : List Nat) : ∀ b ∈ sha256 m, b < 256 := by
  intro b hb
  simp only [sha256, be32, List.mem_append, List.mem_cons, List.not_mem_nil, or_false] at hb
  omega

/-- HMAC output consists of bytes. -/
theorem hmacChars_mem_lt (d : List Char) : ∀ b ∈ hmacChars d, b < 256 := by
  intro b hb
  simp only [hmacChars, hmacSha256] at hb
  exact sha256_mem_lt _ b hb

/-- SHA-256 output starts with a byte (it is never empty). -/
theorem sha256_shape (m : List Nat) : ∃ b t, sha256 m = b :: t ∧ b < 256 := by
  simp only [sha256, be32, List.cons_append]
  exact ⟨_, _, rfl, by omega⟩

/-- Splitting never yields the empty list of segments. -/
theorem splitOnDot_ne_nil : ∀ l, splitOnDot l ≠ [] := by
  intro l
  induction l with
  | nil => simp [splitOnDot]
  | cons c rest ih =>
    by_cases hc : c = '.'
    · simp [splitOnDot, hc]
    · rw [splitOnDot, if_neg hc]
      cases h : splitOnDot rest with
      | nil => simp
      | cons a t => simp

/-- A dot-free list is a single segment. -/
theorem splitOnDot_noDot (l : List Char) (h : ∀ c ∈ l, c ≠ '.') : splitOnDot l = [l] := by
  induction l with
  | nil => rfl
  | cons c rest ih =>
    have hc : c ≠ '.' := h c (by simp)
    rw [splitOnDot, if_neg hc, ih (fun x hx => h x (by simp [hx]))]

/-- Splitting after a dot-free prefix peels off that prefix as one segment. -/
theorem splitOnDot_append (a rest : List Char) (h : ∀ c ∈ a, c ≠ '.') :
    splitOnDot (a ++ '.' :: rest) = a :: splitOnDot rest := by
  induction a with
  | nil =>
    rw [List.nil_append, splitOnDot, if_pos rfl]
  | cons c a2 ih =>
    have hc : c ≠ '.' := h c (by simp)
    rw [List.cons_append, splitOnDot, if_neg hc, ih (fun x hx => h x (by simp [hx]))]

/-! ## Lemmas: JSON numbers -/

/-- Facts about decimal digit characters, by enumeration. -/
theorem digitChar_facts : ∀ d, d < 10 →
    isDigitChar (Nat.digitChar d) = true ∧
    digitValC (Nat.digitChar d) = d ∧
    Nat.digitChar d ≠ '-' ∧
    isWsChar (Nat.digitChar d) = false ∧
    Nat.digitChar d ≠ 'n' ∧ Nat.digitChar d ≠ 't' ∧ Nat.digitChar d ≠ 'f' ∧
    Nat.digitChar d ≠ '"' ∧ Nat.digitChar d ≠ lbrace ∧ Nat.digitChar d ≠ '[' ∧
    (d ≠ 0 → Nat.digitChar d ≠ '0') := by decide

/-- A digit run parses to the most-significant-first fold of its digits and
stops at the first non-digit. -/
theorem parseDigitsAux_digits (ds : List Nat) (hds : ∀ d ∈ ds, d < 10) (acc : Nat)
    (rest : List Char) (hrest : ∀ c, rest.head? = some c → isDigitChar c = false) :
    parseDigitsAux acc (ds.map Nat.digitChar ++ rest) =
      (ds.foldl (fun a d => a * 10 + d) acc, rest) := by
  induction ds generalizing acc with
  | nil =>
    simp only [List.map_nil, List.nil_append, List.foldl_nil]
    cases rest with
    | nil => rfl
    | cons c r =>
      have h := hrest c rfl
      rw [parseDigitsAux]
      simp [h]
  | cons d ds2 ih =>
    have hd : d < 10 := hds d (by simp)
    simp only [List.map_cons, List.cons_append, List.foldl_cons]
    rw [parseDigitsAux]
    simp only [(digitChar_facts d hd).1, if_true, (digitChar_facts d hd).2.1]
    exact ih (fun x hx => hds x (by simp [hx])) (acc * 10 + d)

/-- All entries of `natDigitsRev` are digits. -/
theorem natDigitsRev_lt : ∀ n, ∀ d ∈ natDigitsRev n, d < 10 := by
  intro n
  induction n using Nat.strong_induction_on with
  | _ n ih =>
    match n with
    | 0 =>
      intro d hd
      rw [natDigitsRev] at hd
      simp at hd
    | m + 1 =>
      intro d hd
      rw [natDigitsRev] at hd
      rcases List.mem_cons.mp hd with rfl | hd2
      · omega
      · exact ih ((m + 1) / 10) (by omega) d hd2

/-- Folding the most-significant-first digits of `n` onto an accumulator. -/
theorem foldl_natDigitsRev : ∀ n acc,
    ((natDigitsRev n).reverse).foldl (fun a d => a * 10 + d) acc =
      acc * 10 ^ (natDigitsRev n).length + n := by
  intro n
  induction n using Nat.strong_induction_on with
  | _ n ih =>
    match n with
    | 0 =>
      intro acc
      rw [natDigitsRev]
      simp
    | m + 1 =>
      intro acc
      rw [natDigitsRev]
      simp only [List.reverse_cons, List.foldl_append, List.length_cons, List.foldl_cons,
        List.foldl_nil]
      rw [ih ((m + 1) / 10) (by omega) acc]
      rw [pow_succ]
      have hqr : (m + 1) / 10 * 10 + (m + 1) % 10 = m + 1 := by omega
      calc (acc * 10 ^ (natDigitsRev ((m + 1) / 10)).length + (m + 1) / 10) * 10 + (m + 1) % 10
          = acc * (10 ^ (natDigitsRev ((m + 1) / 10)).length * 10) +
              ((m + 1) / 10 * 10 + (m + 1) % 10) := by ring
        _ = acc * (10 ^ (natDigitsRev ((m + 1) / 10)).length * 10) + (m + 1) := by rw [hqr]

/-- Decomposition of the printed digits of a positive number: a nonzero
leading digit followed by digits, folding back to the number. -/
theorem natChars_decomp (n : Nat) (hn : n ≠ 0) :
    ∃ d ds, natChars n = Nat.digitChar d :: ds.map Nat.digitChar ∧ 1 ≤ d ∧ d < 10 ∧
      (∀ x ∈ ds, x < 10) ∧ (d :: ds).foldl (fun a x => a * 10 + x) 0 = n := by
  have hshape : ∀ m, m ≠ 0 → ∃ d ds2, (natDigitsRev m).reverse = d :: ds2 ∧ 1 ≤ d ∧ d < 10 := by
    intro m
    induction m using Nat.strong_induction_on with
    | _ m ihm =>
      match m with
      | 0 => intro h0; exact absurd rfl h0
      | k + 1 =>
        intro hk
        rw [natDigitsRev]
        by_cases hsmall : (k + 1) / 10 = 0
        · rw [hsmall, natDigitsRev]
          exact ⟨(k + 1) % 10, [], by simp, by omega, by omega⟩
        · obtain ⟨d, ds2, hrepr, h1, h2⟩ := ihm ((k + 1) / 10) (by omega) hsmall
          exact ⟨d, ds2 ++ [(k + 1) % 10], by simp [hrepr], h1, h2⟩
  obtain ⟨d, ds2, hrepr, h1, h2⟩ := hshape n hn
  refine ⟨d, ds2, ?_, h1, h2, ?_, ?_⟩
  · rw [natChars, if_neg hn, ← List.map_reverse, hrepr, List.map_cons]
  · intro x hx
    have : x ∈ (natDigitsRev n).reverse := by rw [hrepr]; simp [hx]
    exact natDigitsRev_lt n x (List.mem_reverse.mp this)
  · rw [← hrepr]
    rw [foldl_natDigitsRev n 0]
    simp

/-- `parsePosIntAux` inverts `natChars` (stopping at a non-digit). -/
theorem parsePosIntAux_natChars (n : Nat) (rest : List Char)
    (hrest : ∀ c, rest.head? = some c → isDigitChar c = false) :
    parsePosIntAux (natChars n ++ rest) = some (n, rest) := by
  by_cases hn : n = 0
  · subst hn
    rw [show natChars 0 = ['0'] from rfl]
    rw [show (['0'] : List Char) ++ rest = '0' :: rest from rfl]
    rw [parsePosIntAux.eq_def]
    dsimp only
    rw [if_pos rfl]
    cases rest with
    | nil => rfl
    | cons c2 r2 =>
      have h := hrest c2 rfl
      simp [h]
  · obtain ⟨d, ds, hrepr, hd1, hd10, hds, hval⟩ := natChars_decomp n hn
    rw [hrepr, List.cons_append, parsePosIntAux.eq_def]
    dsimp only
    rw [if_neg ((digitChar_facts d hd10).2.2.2.2.2.2.2.2.2.2 (by omega))]
    rw [if_pos ((digitChar_facts d hd10).1)]
    rw [(digitChar_facts d hd10).2.1]
    rw [parseDigitsAux_digits ds hds d rest hrest]
    rw [List.foldl_cons] at hval
    simp only [Nat.zero_mul, Nat.zero_add] at hval
    rw [hval]

/-- `parseNumberFrom` inverts the integer printer (stopping at a
non-digit). -/
theorem parseNumberFrom_intChars (i : Int) (rest : List Char)
    (hrest : ∀ c, rest.head? = some c → isDigitChar c = false) :
    parseNumberFrom (intChars i ++ rest) = some (Js.num i, rest) := by
  rw [intChars]
  by_cases hi : i < 0
  · rw [if_pos hi, List.cons_append, parseNumberFrom, if_pos rfl]
    rw [parsePosIntAux_natChars i.natAbs rest hrest]
    show some (Js.num (-((i.natAbs : Nat) : Int)), rest) = some (Js.num i, rest)
    rw [show -((i.natAbs : Nat) : Int) = i from by omega]
  · rw [if_neg hi]
    have hrw : i = ((i.toNat : Nat) : Int) := by omega
    by_cases hn : i.toNat = 0
    · rw [hn, show natChars 0 = ['0'] from rfl,
        show (['0'] : List Char) ++ rest = '0' :: rest from rfl]
      rw [parseNumberFrom, if_neg (by decide)]
      rw [show ('0' :: rest) = natChars 0 ++ rest from rfl]
      rw [parsePosIntAux_natChars 0 rest hrest]
      have h0 : i = 0 := by omega
      subst h0
      rfl
    · obtain ⟨d, ds, hrepr, hd1, hd10, hds, hval⟩ := natChars_decomp i.toNat hn
      rw [hrepr, List.cons_append, parseNumberFrom]
      rw [if_neg ((digitChar_facts d hd10).2.2.1)]
      rw [← List.cons_append, ← hrepr]
      rw [parsePosIntAux_natChars i.toNat rest hrest]
      show some (Js.num ((i.toNat : Nat) : Int), rest) = some (Js.num i, rest)
      rw [← hrw]

/-! ## Lemmas: JSON string literals -/

/-- Hexadecimal digits as printed (lowercase) parse back to their value. -/
theorem hexDigitChar_val : ∀ k, k < 16 → hexValC (Nat.digitChar k) = some k := by decide

/-- The string-body parser inverts `JSON.stringify` escaping, consuming
through the closing quote and appending the read characters to the
accumulator. -/
theorem parseJStringAux_esc : ∀ (cs acc rest : List Char),
    parseJStringAux acc (escChars cs ++ '"' :: rest) =
      some (String.mk (acc.reverse ++ cs), rest) := by
  intro cs
  induction cs with
  | nil =>
    intro acc rest
    rw [show escChars [] = [] from rfl, List.nil_append]
    rw [parseJStringAux.eq_def]
    dsimp only
    rw [if_pos rfl, List.append_nil]
  | cons c cs2 ih =>
    intro acc rest
    rw [show escChars (c :: cs2) = escChar c ++ escChars cs2 from rfl, List.append_assoc]
    by_cases h1 : c = '"'
    · rw [escChar, if_pos h1]
      rw [show (['\\', '"'] : List Char) ++ (escChars cs2 ++ '"' :: rest) =
        '\\' :: '"' :: (escChars cs2 ++ '"' :: rest) from rfl]
      rw [parseJStringAux.eq_def]
      dsimp only
      rw [if_neg (by decide), if_pos rfl, if_pos rfl]
      rw [ih ('"' :: acc) rest]
      subst h1
      simp [List.append_assoc]
    · rw [escChar, if_neg h1]
      by_cases h2 : c = '\\'
      · rw [if_pos h2]
        rw [show (['\\', '\\'] : List Char) ++ (escChars cs2 ++ '"' :: rest) =
          '\\' :: '\\' :: (escChars cs2 ++ '"' :: rest) from rfl]
        rw [parseJStringAux.eq_def]
        dsimp only
        rw [if_neg (by decide), if_pos rfl, if_neg (by decide), if_pos rfl]
        rw [ih ('\\' :: acc) rest]
        subst h2
        simp [List.append_assoc]
      · rw [if_neg h2]
        by_cases h3 : c.toNat = 8
        · rw [if_pos h3]
          rw [show (['\\', 'b'] : List Char) ++ (escChars cs2 ++ '"' :: rest) =
            '\\' :: 'b' :: (escChars cs2 ++ '"' :: rest) from rfl]
          rw [parseJStringAux.eq_def]
          dsimp only
          rw [if_neg (by decide), if_pos rfl, if_neg (by decide), if_neg (by decide),
            if_neg (by decide), if_pos rfl]
          have hc : Char.ofNat 8 = c := by rw [← h3, Char.ofNat_toNat]
          rw [hc, ih (c :: acc) rest]
          simp [List.append_assoc]
        · rw [if_neg h3]
          by_cases h4 : c.toNat = 9
          · rw [if_pos h4]
            rw [show (['\\', 't'] : List Char) ++ (escChars cs2 ++ '"' :: rest) =
              '\\' :: 't' :: (escChars cs2 ++ '"' :: rest) from rfl]
            rw [parseJStringAux.eq_def]
            dsimp only
            rw [if_neg (by decide), if_pos rfl, if_neg (by decide), if_neg (by decide),
              if_neg (by decide), if_neg (by decide), if_neg (by decide), if_neg (by decide),
              if_neg (by decide), if_pos rfl]
            have hc : Char.ofNat 9 = c := by rw [← h4, Char.ofNat_toNat]
            rw [hc, ih (c :: acc) rest]
            simp [List.append_assoc]
          · rw [if_neg h4]
            by_cases h5 : c.toNat = 10
            · rw [if_pos h5]
              rw [show (['\\', 'n'] : List Char) ++ (escChars cs2 ++ '"' :: rest) =
                '\\' :: 'n' :: (escChars cs2 ++ '"' :: rest) from rfl]
              rw [parseJStringAux.eq_def]
              dsimp only
              rw [if_neg (by decide), if_pos rfl, if_neg (by decide), if_neg (by decide),
                if_neg (by decide), if_neg (by decide), if_neg (by decide), if_pos rfl]
              have hc : Char.ofNat 10 = c := by rw [← h5, Char.ofNat_toNat]
              rw [hc, ih (c :: acc) rest]
              simp [List.append_assoc]
            · rw [if_neg h5]
              by_cases h6 : c.toNat = 12
              · rw [if_pos h6]
                rw [show (['\\', 'f'] : List Char) ++ (escChars cs2 ++ '"' :: rest) =
                  '\\' :: 'f' :: (escChars cs2 ++ '"' :: rest) from rfl]
                rw [parseJStringAux.eq_def]
                dsimp only
                rw [if_neg (by decide), if_pos rfl, if_neg (by decide), if_neg (by decide),
                  if_neg (by decide), if_neg (by decide), if_pos rfl]
                have hc : Char.ofNat 12 = c := by rw [← h6, Char.ofNat_toNat]
                rw [hc, ih (c :: acc) rest]
                simp [List.append_assoc]
              · rw [if_neg h6]
                by_cases h7 : c.toNat = 13
                · rw [if_pos h7]
                  rw [show (['\\', 'r'] : List Char) ++ (escChars cs2 ++ '"' :: rest) =
                    '\\' :: 'r' :: (escChars cs2 ++ '"' :: rest) from rfl]
                  rw [parseJStringAux.eq_def]
                  dsimp only
                  rw [if_neg (by decide), if_pos rfl, if_neg (by decide), if_neg (by decide),
                    if_neg (by decide), if_neg (by decide), if_neg (by decide),
                    if_neg (by decide), if_pos rfl]
                  have hc : Char.ofNat 13 = c := by rw [← h7, Char.ofNat_toNat]
                  rw [hc, ih (c :: acc) rest]
                  simp [List.append_assoc]
                · rw [if_neg h7]
                  by_cases h8 : c.toNat < 32
                  · rw [if_pos h8]
                    rw [show ('\\' :: 'u' :: '0' :: '0' :: Nat.digitChar (c.toNat / 16) ::
                        Nat.digitChar (c.toNat % 16) :: []) ++ (escChars cs2 ++ '"' :: rest) =
                      '\\' :: 'u' :: '0' :: '0' :: Nat.digitChar (c.toNat / 16) ::
                        Nat.digitChar (c.toNat % 16) :: (escChars cs2 ++ '"' :: rest) from rfl]
                    rw [parseJStringAux.eq_def]
                    dsimp only
                    rw [if_neg (by decide), if_pos rfl, if_neg (by decide), if_neg (by decide),
                      if_neg (by decide), if_neg (by decide), if_neg (by decide),
                      if_neg (by decide), if_neg (by decide), if_neg (by decide), if_pos rfl]
                    simp only [List.getD_cons_zero, List.getD_cons_succ]
                    rw [show hexValC '0' = some 0 from by decide,
                      hexDigitChar_val (c.toNat / 16) (by omega),
                      hexDigitChar_val (c.toNat % 16) (by omega)]
                    dsimp only
                    rw [if_neg (by omega)]
                    rw [show charOfCode (0 * 4096 + 0 * 256 + c.toNat / 16 * 16 + c.toNat % 16) =
                      c from by rw [charOfCode, if_neg (by omega),
                        show 0 * 4096 + 0 * 256 + c.toNat / 16 * 16 + c.toNat % 16 = c.toNat
                          from by omega, Char.ofNat_toNat]]
                    rw [show List.drop 4 ('0' :: '0' :: Nat.digitChar (c.toNat / 16) ::
                      Nat.digitChar (c.toNat % 16) :: (escChars cs2 ++ '"' :: rest)) =
                      escChars cs2 ++ '"' :: rest from rfl]
                    rw [ih (c :: acc) rest]
                    simp [List.append_assoc]
                  · rw [if_neg h8]
                    rw [show ([c] : List Char) ++ (escChars cs2 ++ '"' :: rest) =
                      c :: (escChars cs2 ++ '"' :: rest) from rfl]
                    rw [parseJStringAux.eq_def]
                    dsimp only
                    rw [if_neg h1, if_neg h2, if_neg (by omega)]
                    rw [ih (c :: acc) rest]
                    simp [List.append_assoc]

/-! ## Lemmas: symbolic execution of the JSON parser on payload skeletons -/

/-- Whitespace skipping passes a non-whitespace head character. -/
theorem skipWs_cons (c : Char) (r : List Char) (h : isWsChar c = false) :
    skipWs (c :: r) = c :: r := by
  rw [skipWs]
  simp [h]

/-- Parsing the `null` literal. -/
theorem parseValue_null (f : Nat) (X : List Char) :
    parseValue (f + 1) ('n' :: 'u' :: 'l' :: 'l' :: X) = some (Js.null, X) := by
  rw [parseValue.eq_def]
  dsimp only
  rw [skipWs_cons _ _ (by decide)]
  dsimp only
  rw [if_pos rfl]
  simp only [List.getD_cons_zero, List.getD_cons_succ]
  rw [if_pos (by simp)]
  rfl

/-- Parsing a stringified string literal. -/
theorem parseValue_str (f : Nat) (s : String) (X : List Char) :
    parseValue (f + 1) ('"' :: (escChars s.data ++ '"' :: X)) = some (Js.str s, X) := by
  rw [parseValue.eq_def]
  dsimp only
  rw [skipWs_cons _ _ (by decide)]
  dsimp only
  rw [if_neg (by decide), if_neg (by decide), if_neg (by decide), if_pos rfl]
  rw [parseJStringAux_esc s.data [] X]
  rfl

/-- Parsing an object opening into its first-member loop. -/
theorem parseValue_obj (f : Nat) (X : List Char) :
    parseValue (f + 1) (lbrace :: '"' :: X) =
      (match parseMembersF (parseValue f) f ('"' :: X) with
       | some (ms, r3) => some (Js.obj ms, r3)
       | none => none) := by
  rw [parseValue.eq_def]
  dsimp only
  rw [skipWs_cons _ _ (by decide)]
  dsimp only
  rw [if_neg (by decide), if_neg (by decide), if_neg (by decide), if_neg (by decide),
    if_pos rfl]
  rw [skipWs_cons _ _ (by decide)]
  dsimp only
  rw [if_neg (by decide)]

/-- Parsing one `"key":value` member and dispatching on the separator. -/
theorem parseMembersF_cons (pv : List Char → Option (Js × List Char)) (g : Nat)
    (k : String) (Y : List Char) :
    parseMembersF pv (g + 1) ('"' :: (escChars k.data ++ '"' :: ':' :: Y)) =
      (match pv Y with
       | some (v, r4) =>
         (match skipWs r4 with
          | c :: r5 =>
            if c = ',' then
              match parseMembersF pv g r5 with
              | some (ms, r6) => some (consMember k v ms, r6)
              | none => none
            else if c = rbrace then some ([(k, v)], r5)
            else none
          | [] => none)
       | none => none) := by
  rw [parseMembersF.eq_def]
  dsimp only
  rw [skipWs_cons _ _ (by decide)]
  dsimp only
  rw [if_pos rfl]
  rw [parseJStringAux_esc k.data [] (':' :: Y)]
  dsimp only
  rw [skipWs_cons _ _ (by decide)]
  dsimp only
  rw [if_pos rfl]
  rfl

/-- The first character of a printed integer, with the classification facts
needed to navigate the value dispatcher. -/
theorem intChars_head : ∀ i : Int, ∃ c t, intChars i = c :: t ∧ isWsChar c = false ∧
    c ≠ 'n' ∧ c ≠ 't' ∧ c ≠ 'f' ∧ c ≠ '"' ∧ c ≠ lbrace ∧ c ≠ '[' ∧
    (c = '-' ∨ isDigitChar c = true) := by
  intro i
  rw [intChars]
  by_cases hi : i < 0
  · rw [if_pos hi]
    exact ⟨'-', _, rfl, by decide, by decide, by decide, by decide, by decide, by decide,
      by decide, Or.inl rfl⟩
  · rw [if_neg hi]
    by_cases hn : i.toNat = 0
    · rw [hn, show natChars 0 = ['0'] from rfl]
      exact ⟨'0', [], rfl, by decide, by decide, by decide, by decide, by decide, by decide,
        by decide, Or.inr (by decide)⟩
    · obtain ⟨d, ds, hrepr, hd1, hd10, hds, hval⟩ := natChars_decomp i.toNat hn
      rw [hrepr]
      have hf := digitChar_facts d hd10
      exact ⟨_, _, rfl, hf.2.2.2.1, hf.2.2.2.2.1, hf.2.2.2.2.2.1, hf.2.2.2.2.2.2.1,
        hf.2.2.2.2.2.2.2.1, hf.2.2.2.2.2.2.2.2.1, hf.2.2.2.2.2.2.2.2.2.1, Or.inr hf.1⟩

/-- Parsing a printed integer through the value dispatcher. -/
theorem parseValue_intChars (f : Nat) (i : Int) (rest : List Char)
    (hrest : ∀ c, rest.head? = some c → isDigitChar c = false) :
    parseValue (f + 1) (intChars i ++ rest) = some (Js.num i, rest) := by
  obtain ⟨c, t, hrepr, hws, hn, ht, hf2, hq, hlb, hbr, hnum⟩ := intChars_head i
  rw [hrepr, List.cons_append, parseValue.eq_def]
  dsimp only
  rw [skipWs_cons _ _ hws]
  dsimp only
  rw [if_neg hn, if_neg ht, if_neg hf2, if_neg hq, if_neg hlb, if_neg hbr, if_pos hnum]
  rw [← List.cons_append, ← hrepr]
  exact parseNumberFrom_intChars i rest hrest

/-- Symbolic execution of the parser over a stringified session payload:
the value and the trailing input are recovered exactly. -/
theorem parseValue_payloadJson (g : Nat) (P : SessionPayload) (rest : List Char) :
    parseValue (g + 8) (stringifyJs (payloadJson P) ++ rest) = some (payloadJson P, rest) := by
  obtain ⟨u, e⟩ := P
  have hdig : ∀ c : Char, (rbrace :: rest).head? = some c → isDigitChar c = false := by
    intro c hc
    simp only [List.head?_cons, Option.some.injEq] at hc
    subst hc
    decide
  cases u with
  | none =>
    have hshape : stringifyJs (payloadJson ⟨none, e⟩) ++ rest =
        lbrace :: '"' :: (escChars "user".data ++ '"' :: ':' ::
          ('n' :: 'u' :: 'l' :: 'l' ::
            (',' :: ('"' :: (escChars "expires".data ++ '"' :: ':' ::
              (intChars e ++ rbrace :: rest)))))) := by
      simp [stringifyJs, stringifyMembers, joinComma, quoteChars, payloadJson, nullChars]
    rw [hshape]
    rw [show g + 8 = (g + 7) + 1 from rfl]
    rw [parseValue_obj (g + 7)]
    rw [show g + 7 = (g + 6) + 1 from rfl]
    rw [parseMembersF_cons (parseValue ((g + 6) + 1)) (g + 6) "user"]
    rw [parseValue_null (g + 6)]
    dsimp only
    rw [skipWs_cons _ _ (by decide)]
    dsimp only
    rw [if_pos rfl]
    rw [show g + 6 = (g + 5) + 1 from rfl]
    rw [parseMembersF_cons (parseValue ((g + 5) + 1 + 1)) (g + 5) "expires"]
    rw [parseValue_intChars (g + 5 + 1) e (rbrace :: rest) hdig]
    dsimp only
    rw [skipWs_cons _ _ (by decide)]
    dsimp only
    rw [if_neg (by decide), if_pos rfl]
    rfl
  | some ur =>
    obtain ⟨nm⟩ := ur
    have hshape : stringifyJs (payloadJson ⟨some ⟨nm⟩, e⟩) ++ rest =
        lbrace :: '"' :: (escChars "user".data ++ '"' :: ':' ::
          (lbrace :: '"' :: (escChars "name".data ++ '"' :: ':' ::
             ('"' :: (escChars nm.data ++ '"' ::
               (rbrace :: (',' :: ('"' :: (escChars "expires".data ++ '"' :: ':' ::
                 (intChars e ++ rbrace :: rest)))))))))) := by
      simp [stringifyJs, stringifyMembers, joinComma, quoteChars, payloadJson, nullChars]
    rw [hshape]
    rw [show g + 8 = (g + 7) + 1 from rfl]
    rw [parseValue_obj (g + 7)]
    rw [show g + 7 = (g + 6) + 1 from rfl]
    rw [parseMembersF_cons (parseValue ((g + 6) + 1)) (g + 6) "user"]
    rw [parseValue_obj (g + 6)]
    rw [show g + 6 = (g + 5) + 1 from rfl]
    rw [parseMembersF_cons (parseValue ((g + 5) + 1)) (g + 5) "name"]
    rw [parseValue_str (g + 5) nm]
    dsimp only
    rw [skipWs_cons _ _ (by decide)]
    dsimp only
    rw [if_neg (by decide), if_pos rfl]
    dsimp only
    rw [skipWs_cons _ _ (by decide)]
    dsimp only
    rw [if_pos rfl]
    rw [show g + 5 + 1 = (g + 4) + 1 + 1 from rfl]
    rw [parseMembersF_cons (parseValue ((g + 4) + 1 + 1 + 1)) ((g + 4) + 1) "expires"]
    rw [parseValue_intChars ((g + 4) + 1 + 1) e (rbrace :: rest) hdig]
    dsimp only
    rw [skipWs_cons _ _ (by decide)]
    dsimp only
    rw [if_neg (by decide), if_pos rfl]
    rfl

/-- `JSON.parse` inverts `JSON.stringify` on session payload values. -/
theorem jsonParse_payload (P : SessionPayload) :
    jsonParse (stringifyStr (payloadJson P)) = some (payloadJson P) := by
  unfold jsonParse stringifyStr
  rw [show (String.mk (stringifyJs (payloadJson P))).data = stringifyJs (payloadJson P)
    from rfl]
  have hlen : 7 ≤ (stringifyJs (payloadJson P)).length := by
    obtain ⟨u, e⟩ := P
    cases u <;>
        simp [stringifyJs, stringifyMembers, joinComma, quoteChars, payloadJson, nullChars,
          List.length_append] <;>
      omega
  rw [show (stringifyJs (payloadJson P)).length + 1 =
    ((stringifyJs (payloadJson P)).length - 7) + 8 from by omega]
  have hp := parseValue_payloadJson ((stringifyJs (payloadJson P)).length - 7) P []
  rw [List.append_nil] at hp
  rw [hp]
  rfl

/-! ## Lemmas: the token codec round trip -/

/-- Decrypting a token produced over an arbitrary JSON value: the signature
always verifies (same signing input, same secret), so the result is
whatever `JSON.parse` makes of the payload text. -/
theorem decrypt_encryptJs (j : Js) : decrypt (encryptJs j) =
    (match jsonParse (stringifyStr j) with
     | some v => v
     | none => Js.null) := by
  unfold decrypt encryptJs
  rw [show (String.mk (signingInputChars j ++ '.' :: encSigChars j)).data =
    signingInputChars j ++ '.' :: encSigChars j from rfl]
  rw [show signingInputChars j ++ '.' :: encSigChars j =
    encHeaderChars ++ '.' :: (encPayloadChars j ++ '.' :: encSigChars j) from by
      rw [signingInputChars, List.append_assoc, List.cons_append]]
  have hH : ∀ c ∈ encHeaderChars, c ≠ '.' := b64urlChars_ne_dot _ (utf8EncodeList_lt _)
  have hP : ∀ c ∈ encPayloadChars j, c ≠ '.' := b64urlChars_ne_dot _ (utf8EncodeList_lt _)
  have hS : ∀ c ∈ encSigChars j, c ≠ '.' := b64urlChars_ne_dot _ (hmacChars_mem_lt _)
  rw [splitOnDot_append _ _ hH, splitOnDot_append _ _ hP, splitOnDot_noDot _ hS]
  dsimp only
  rw [if_pos (show b64urlChars (hmacChars (encHeaderChars ++ '.' :: encPayloadChars j)) =
    encSigChars j from rfl)]
  rw [show String.mk (encPayloadChars j) = b64url (utf8EncodeList (stringifyJs j)) from rfl]
  rw [b64urlDecode_b64url _ (utf8EncodeList_lt _)]
  rw [show utf8Decode (utf8EncodeList (stringifyJs j)) =
    String.mk (utf8DecodeList (utf8EncodeList (stringifyJs j))) from rfl]
  rw [utf8DecodeList_encodeList]
  rfl

/-- The codec round trip on session payloads: decrypting an encrypted
payload yields exactly the payload's JSON value. -/
theorem decrypt_encrypt (P : SessionPayload) : decrypt (encrypt P) = payloadJson P := by
  rw [encrypt, decrypt_encryptJs, jsonParse_payload]

/-! ## Lemmas: tampering with the signature segment -/

/-- HMAC output starts with a byte. -/
theorem hmacChars_shape (d : List Char) : ∃ b t, hmacChars d = b :: t ∧ b < 256 := by
  unfold hmacChars hmacSha256
  exact sha256_shape _

/-- Replacing the first signature character by a dot changes the segment:
signature segments are nonempty and never contain dots. -/
theorem encSigChars_set_zero_ne (j : Js) : (encSigChars j).set 0 '.' ≠ encSigChars j := by
  obtain ⟨b, t, hshape, hb⟩ := hmacChars_shape (signingInputChars j)
  rw [encSigChars, hshape]
  obtain ⟨t2, hhead⟩ := b64urlChars_cons_head b t hb
  rw [hhead, List.set_cons_zero]
  intro heq
  injection heq with h1 h2
  exact urlSafe_b64CharOf_ne_dot (b / 4) (by omega) h1.symm

/-- Any actual change to the signature segment of a well-formed token makes
`decrypt` return null: either the new character is a dot and the token no
longer has three segments, or the string comparison with the recomputed
signature fails. -/
theorem decrypt_tampered (j : Js) (i : Nat) (c : Char)
    (hne : (encSigChars j).set i c ≠ encSigChars j) :
    decrypt (String.mk (signingInputChars j ++ '.' :: (encSigChars j).set i c)) = Js.null := by
  have hH : ∀ x ∈ encHeaderChars, x ≠ '.' := b64urlChars_ne_dot _ (utf8EncodeList_lt _)
  have hP : ∀ x ∈ encPayloadChars j, x ≠ '.' := b64urlChars_ne_dot _ (utf8EncodeList_lt _)
  have hS : ∀ x ∈ encSigChars j, x ≠ '.' := b64urlChars_ne_dot _ (hmacChars_mem_lt _)
  have hlen : i < (encSigChars j).length := by
    by_contra hcon
    exact hne (List.set_eq_of_length_le (by omega))
  unfold decrypt
  rw [show (String.mk (signingInputChars j ++ '.' :: (encSigChars j).set i c)).data =
    signingInputChars j ++ '.' :: (encSigChars j).set i c from rfl]
  rw [show signingInputChars j ++ '.' :: (encSigChars j).set i c =
    encHeaderChars ++ '.' :: (encPayloadChars j ++ '.' :: (encSigChars j).set i c) from by
      rw [signingInputChars, List.append_assoc, List.cons_append]]
  rw [splitOnDot_append _ _ hH, splitOnDot_append _ _ hP]
  by_cases hc : c = '.'
  · subst hc
    rw [List.set_eq_take_append_cons_drop, if_pos hlen]
    have htake : ∀ x ∈ (encSigChars j).take i, x ≠ '.' :=
      fun x hx => hS x (List.mem_of_mem_take hx)
    have hdrop : ∀ x ∈ (encSigChars j).drop (i + 1), x ≠ '.' :=
      fun x hx => hS x (List.mem_of_mem_drop hx)
    rw [splitOnDot_append _ _ htake, splitOnDot_noDot _ hdrop]
  · have hS2 : ∀ x ∈ (encSigChars j).set i c, x ≠ '.' := by
      intro x hx
      rcases List.mem_or_eq_of_mem_set hx with hmem | rfl
      · exact hS x hmem
      · exact hc
    rw [splitOnDot_noDot _ hS2]
    dsimp only
    rw [if_neg (fun hcon => hne hcon.symm)]

/-! ## Lemmas: JavaScript dynamics on payload values -/

/-- Payload objects are truthy. -/
theorem falsy_payloadJson (P : SessionPayload) : falsy (payloadJson P) = false := rfl

/-- The `expires` property of a payload object. -/
theorem getField_payloadJson_expires (P : SessionPayload) :
    getField (payloadJson P) "expires" = some (Js.num P.expires) := rfl

/-- The expiry comparison on a payload object. -/
theorem expiresLtNow_payloadJson (P : SessionPayload) (now : Int) :
    expiresLtNow (payloadJson P) now = decide (P.expires < now) := rfl

/-- The remaining-TTL subtraction on a payload object. -/
theorem remainingOf_payloadJson (P : SessionPayload) (now : Int) :
    remainingOf (payloadJson P) now = some (P.expires - now) := rfl

/-- The refresh spread on a payload object only replaces `expires`. -/
theorem spreadSetExpires_payloadJson (P : SessionPayload) (v : Int) :
    spreadSetExpires (payloadJson P) v = payloadJson ⟨P.user, v⟩ := by
  obtain ⟨u, e⟩ := P
  rfl

/-- Tokens are nonempty strings, so the `!token` guard passes. -/
theorem encryptJs_ne_empty (j : Js) : encryptJs j ≠ "" := by
  intro h
  have hdata : (encryptJs j).data = [] := by rw [h]
  rw [show (encryptJs j).data = signingInputChars j ++ '.' :: encSigChars j from rfl] at hdata
  simp at hdata

/-- Behavior of `getSession` on a served token: the payload comes back
unless `expires < now`. -/
theorem getSession_encrypt (P : SessionPayload) (now : Int) :
    getSession (some (encrypt P)) now =
      if P.expires < now then Js.null else payloadJson P := by
  unfold getSession
  dsimp only
  rw [if_neg (show ¬(encrypt P = "") from encryptJs_ne_empty (payloadJson P))]
  rw [decrypt_encrypt, falsy_payloadJson]
  rw [if_neg (by simp)]
  rw [expiresLtNow_payloadJson]
  by_cases he : P.expires < now
  · rw [if_pos (by simp [he]), if_pos he]
  · rw [if_neg (by simp [he]), if_neg he]

/-- Behavior of `updateSession` on a served token: refresh exactly when
the remaining TTL is below the two-minute threshold. -/
theorem updateSession_encrypt (P : SessionPayload) (now : Int) :
    updateSession (some (encrypt P)) now =
      if P.expires - now < 120000 then
        some (sessionCookieOpts (encrypt ⟨P.user, now + 600000⟩))
      else none := by
  unfold updateSession
  dsimp only
  rw [if_neg (show ¬(encrypt P = "") from encryptJs_ne_empty (payloadJson P))]
  rw [decrypt_encrypt, falsy_payloadJson]
  rw [if_neg (by simp)]
  rw [remainingOf_payloadJson]
  dsimp only
  rw [spreadSetExpires_payloadJson]
  rfl

/-- `getSession` on a cookie whose decryption fails. -/
theorem getSession_invalid (t : String) (now : Int) (h : decrypt t = Js.null) :
    getSession (some t) now = Js.null := by
  unfold getSession
  dsimp only
  by_cases ht : t = ""
  · rw [if_pos ht]
  · rw [if_neg ht, h]
    simp [falsy]

/-- `updateSession` on a cookie whose decryption fails. -/
theorem updateSession_invalid (t : String) (now : Int) (h : decrypt t = Js.null) :
    updateSession (some t) now = none := by
  unfold updateSession
  dsimp only
  by_cases ht : t = ""
  · rw [if_pos ht]
  · rw [if_neg ht, h]
    simp [falsy]

/-- Truthiness of `session?.user` on the null session. -/
theorem sessionUserTruthy_null : sessionUserTruthy Js.null = false := rfl

/-- Truthiness of `session?.user` on a payload object is decided by the
`user` field. -/
theorem sessionUserTruthy_payloadJson (P : SessionPayload) :
    sessionUserTruthy (payloadJson P) =
      (match P.user with | none => false | some _ => true) := by
  obtain ⟨u, e⟩ := P
  cases u <;> rfl

/-! ## Lemmas: the flash list cap -/

/-- One append never leaves more than 10 entries. -/
theorem appendFlash_length_le (l : List String) (e : String) : (appendFlash l e).length ≤ 10 := by
  unfold appendFlash
  dsimp only
  split_ifs with h
  · rw [List.length_drop]
    omega
  · omega

/-- One append keeps exactly the last 10 entries of the pushed list. -/
theorem appendFlash_eq_drop (l : List String) (e : String) :
    appendFlash l e = (l ++ [e]).drop ((l ++ [e]).length - 10) := by
  unfold appendFlash
  dsimp only
  split_ifs with h
  · rfl
  · rw [show (l ++ [e]).length - 10 = 0 from by omega, List.drop_zero]

/-- Keeping the last 10 before appending more entries does not change the
final last 10. -/
theorem drop_last_absorb (x rest : List String) :
    (x.drop (x.length - 10) ++ rest).drop ((x.drop (x.length - 10) ++ rest).length - 10) =
      (x ++ rest).drop ((x ++ rest).length - 10) := by
  by_cases hx : x.length ≤ 10
  · rw [show x.length - 10 = 0 from by omega, List.drop_zero]
  · have hlen : (x.drop (x.length - 10)).length = 10 := by
      rw [List.length_drop]
      omega
    rw [List.length_append, List.length_append, hlen]
    by_cases hr : rest.length ≤ 10
    · rw [List.drop_append_of_le_length (by omega),
        List.drop_append_of_le_length (by omega : x.length + rest.length - 10 ≤ x.length)]
      rw [List.drop_drop]
      rw [show x.length - 10 + (10 + rest.length - 10) = x.length + rest.length - 10 from
        by omega]
    · rw [show 10 + rest.length - 10 = (x.drop (x.length - 10)).length + (rest.length - 10)
        from by rw [hlen]; omega]
      rw [List.drop_append]
      rw [show x.length + rest.length - 10 = x.length + (rest.length - 10) from by omega]
      rw [List.drop_append]

/-- Folding appends over a nonempty message list keeps exactly the last 10
of everything seen, independent of intermediate truncations. -/
theorem foldl_appendFlash (msgs : List String) : ∀ start, msgs ≠ [] →
    List.foldl appendFlash start msgs = (start ++ msgs).drop ((start ++ msgs).length - 10) := by
  induction msgs with
  | nil => intro start h; exact absurd rfl h
  | cons m rest ih =>
    intro start _
    rw [List.foldl_cons]
    by_cases hr : rest = []
    · subst hr
      rw [List.foldl_nil, appendFlash_eq_drop]
    · rw [ih (appendFlash start m) hr, appendFlash_eq_drop]
      have habs := drop_last_absorb (start ++ [m]) rest
      rw [habs, List.append_assoc, List.singleton_append]

/-- Printed integers survive a `JSON.parse` round trip. -/
theorem jsonParse_num (i : Int) : jsonParse (stringifyStr (Js.num i)) = some (Js.num i) := by
  unfold jsonParse stringifyStr
  rw [show (String.mk (stringifyJs (Js.num i))).data = stringifyJs (Js.num i) from rfl]
  rw [show stringifyJs (Js.num i) = intChars i from rfl]
  have hp := parseValue_intChars ((intChars i).length) i [] (by intro c hc; simp at hc)
  rw [List.append_nil] at hp
  rw [hp]
  rfl

/-! ## The claims -/

/-- Claim C1: for every SessionPayload P, decoding the encoding of P gives
back P field-for-field: `decrypt (encrypt P)` is exactly the JSON value of
P, and that value reads back as P. -/
theorem session_c1 (P : SessionPayload) :
    decrypt (encrypt P) = payloadJson P ∧ sessionPayloadOfJs (payloadJson P) = some P := by
  refine ⟨decrypt_encrypt P, ?_⟩
  obtain ⟨u, e⟩ := P
  cases u <;> rfl

/-- Claim C2: a token produced by `encrypt P` is the signing input, a dot
and the signature segment; replacing any single character of the signature
segment (position `i` set to a genuinely different character `c`) yields a
string on which `decrypt` returns null. -/
theorem session_c2 (P : SessionPayload) (i : Nat) (c : Char)
    (hchange : (encSigChars (payloadJson P)).set i c ≠ encSigChars (payloadJson P)) :
    encrypt P =
      String.mk (signingInputChars (payloadJson P) ++ '.' :: encSigChars (payloadJson P)) ∧
    decrypt (String.mk (signingInputChars (payloadJson P) ++ '.' ::
      (encSigChars (payloadJson P)).set i c)) = Js.null :=
  ⟨rfl, decrypt_tampered (payloadJson P) i c hchange⟩

/-- Witness for C2 at a concrete payload: overwriting the first signature
character with a dot invalidates the token. -/
theorem session_c2_witness :
    decrypt (String.mk (signingInputChars (payloadJson ⟨some ⟨"Admin"⟩, 1000⟩) ++ '.' ::
      (encSigChars (payloadJson ⟨some ⟨"Admin"⟩, 1000⟩)).set 0 '.')) = Js.null :=
  (session_c2 ⟨some ⟨"Admin"⟩, 1000⟩ 0 '.'
    (encSigChars_set_zero_ne (payloadJson ⟨some ⟨"Admin"⟩, 1000⟩))).2

/-- Counterexample to C3 as stated: with `expires` equal to the current
time, the expiry is not in the future, yet `getSession` returns the
payload rather than null (the code checks `expires < now`, not
`expires ≤ now`). -/
theorem session_c3_counterexample :
    getSession (some (encrypt ⟨some ⟨"Admin"⟩, 1000⟩)) 1000 =
      payloadJson ⟨some ⟨"Admin"⟩, 1000⟩ ∧
    payloadJson ⟨some ⟨"Admin"⟩, 1000⟩ ≠ Js.null := by
  constructor
  · rw [getSession_encrypt]
    rw [if_neg (by decide)]
  · exact fun h => Js.noConfusion h

/-- Claim C3 (amended): `getSession` returns null when the cookie is
absent, null when `decrypt` returns null, and null when the decoded
payload's `expires` is strictly earlier than the time of the call; when
`expires` is at or after the call time it returns the decoded payload.
The function is total (never throws past this boundary). -/
theorem session_c3 :
    (∀ now : Int, getSession none now = Js.null) ∧
    (∀ (t : String) (now : Int), decrypt t = Js.null → getSession (some t) now = Js.null) ∧
    (∀ (P : SessionPayload) (now : Int), P.expires < now →
      getSession (some (encrypt P)) now = Js.null) ∧
    (∀ (P : SessionPayload) (now : Int), now ≤ P.expires →
      getSession (some (encrypt P)) now = payloadJson P) := by
  refine ⟨fun now => rfl, fun t now h => getSession_invalid t now h, ?_, ?_⟩
  · intro P now h
    rw [getSession_encrypt, if_pos h]
  · intro P now h
    rw [getSession_encrypt, if_neg (by omega)]

/-- Witness for C3 at concrete inputs. -/
theorem session_c3_witness :
    getSession none 0 = Js.null ∧
    getSession (some "x") 0 = Js.null ∧
    getSession (some (encrypt ⟨some ⟨"Admin"⟩, 5⟩)) 10 = Js.null ∧
    getSession (some (encrypt ⟨some ⟨"Admin"⟩, 20⟩)) 10 = payloadJson ⟨some ⟨"Admin"⟩, 20⟩ :=
  ⟨session_c3.1 0, session_c3.2.1 "x" 0 rfl,
   session_c3.2.2.1 ⟨some ⟨"Admin"⟩, 5⟩ 10 (by decide),
   session_c3.2.2.2 ⟨some ⟨"Admin"⟩, 20⟩ 10 (by decide)⟩

/-- Claim C4: on a validly signed token whose `expires` is already in the
past, `updateSession` still attaches a refreshed cookie with
`expires = now + 600000` and the login cookie attributes; only the
remaining-TTL threshold is checked, not the absolute-expiry gate. -/
theorem session_c4 (P : SessionPayload) (now : Int) (h : P.expires < now) :
    updateSession (some (encrypt P)) now =
      some (sessionCookieOpts (encrypt ⟨P.user, now + 600000⟩)) := by
  rw [updateSession_encrypt, if_pos (by omega)]

/-- Witness for C4: a token expired 1000 ms ago is still refreshed. -/
theorem session_c4_witness :
    updateSession (some (encrypt ⟨some ⟨"Admin"⟩, 0⟩)) 1000 =
      some (sessionCookieOpts (encrypt ⟨some ⟨"Admin"⟩, 1000 + 600000⟩)) :=
  session_c4 ⟨some ⟨"Admin"⟩, 0⟩ 1000 (by decide)

/-- Claim C5: `login` with anything other than admin/password fails with
the `Invalid credentials` error and queues no cookie write; with exactly
those credentials it sets the session cookie to a token over
`{user: {name: "Admin"}, expires: now + 600000}`. -/
theorem session_c5 :
    (∀ (u p : String) (now : Int), ¬(u = "admin" ∧ p = "password") →
      login u p now = Except.error "Invalid credentials") ∧
    (∀ now : Int, login "admin" "password" now =
      Except.ok (sessionCookieOpts (encrypt ⟨some ⟨"Admin"⟩, now + 600000⟩))) := by
  constructor
  · intro u p now h
    rw [login, if_pos (by tauto)]
  · intro now
    rw [login, if_neg (by simp)]

/-- Witness for C5 at concrete credentials. -/
theorem session_c5_witness :
    login "bob" "wrong" 0 = Except.error "Invalid credentials" ∧
    login "admin" "password" 7 =
      Except.ok (sessionCookieOpts (encrypt ⟨some ⟨"Admin"⟩, 7 + 600000⟩)) :=
  ⟨session_c5.1 "bob" "wrong" 0 (by decide), session_c5.2 7⟩

/-- Claim C6: `updateSession` makes no change when the cookie is absent,
when decryption fails, or when the remaining TTL is at or above the
two-minute threshold; consequently any number of repeated applications
within one request leaves the cookie unchanged.  Below the threshold it
attaches a cookie whose payload expires 600 seconds after the call. -/
theorem session_c6 :
    (∀ now : Int, updateSession none now = none) ∧
    (∀ (t : String) (now : Int), decrypt t = Js.null → updateSession (some t) now = none) ∧
    (∀ (P : SessionPayload) (now : Int), 120000 ≤ P.expires - now →
      updateSession (some (encrypt P)) now = none) ∧
    (∀ (P : SessionPayload) (now : Int) (n : Nat), 120000 ≤ P.expires - now →
      (applyUpdate now)^[n] (some (encrypt P)) = some (encrypt P)) ∧
    (∀ (P : SessionPayload) (now : Int), P.expires - now < 120000 →
      updateSession (some (encrypt P)) now =
        some (sessionCookieOpts (encrypt ⟨P.user, now + 600000⟩))) := by
  have hnone : ∀ (P : SessionPayload) (now : Int), 120000 ≤ P.expires - now →
      updateSession (some (encrypt P)) now = none := by
    intro P now h
    rw [updateSession_encrypt, if_neg (by omega)]
  refine ⟨fun now => rfl, fun t now h => updateSession_invalid t now h, hnone, ?_, ?_⟩
  · intro P now n h
    induction n with
    | zero => rfl
    | succ k ihk =>
      rw [Function.iterate_succ_apply]
      rw [show applyUpdate now (some (encrypt P)) = some (encrypt P) from by
        unfold applyUpdate
        rw [hnone P now h]]
      exact ihk
  · intro P now h
    rw [updateSession_encrypt, if_pos h]

/-- Witness for C6: an undecodable cookie, a 10-minute-TTL token left
unchanged (also under three repeated applications), and a 90-second-TTL
token refreshed to 600 seconds. -/
theorem session_c6_witness :
    updateSession (some "x") 0 = none ∧
    updateSession (some (encrypt ⟨some ⟨"Admin"⟩, 600000⟩)) 0 = none ∧
    (applyUpdate 0)^[3] (some (encrypt ⟨some ⟨"Admin"⟩, 600000⟩)) =
      some (encrypt ⟨some ⟨"Admin"⟩, 600000⟩) ∧
    updateSession (some (encrypt ⟨some ⟨"Admin"⟩, 90000⟩)) 0 =
      some (sessionCookieOpts (encrypt ⟨some ⟨"Admin"⟩, 0 + 600000⟩)) :=
  ⟨session_c6.2.1 "x" 0 rfl,
   session_c6.2.2.1 ⟨some ⟨"Admin"⟩, 600000⟩ 0 (by decide),
   session_c6.2.2.2.1 ⟨some ⟨"Admin"⟩, 600000⟩ 0 3 (by decide),
   session_c6.2.2.2.2 ⟨some ⟨"Admin"⟩, 90000⟩ 0 (by decide)⟩

/-- Counterexample to C7 as stated: a validly signed token whose payload is
the JSON text `42` is not of the SessionPayload shape, yet `decrypt`
returns the value 42, not null: no shape validation is performed. -/
theorem session_c7_counterexample :
    decrypt (encryptJs (Js.num 42)) = Js.num 42 ∧ Js.num 42 ≠ Js.null := by
  constructor
  · rw [decrypt_encryptJs, jsonParse_num]
  · exact fun h => Js.noConfusion h

/-- Claim C7 (amended): `decrypt` returns null (as a value, never an
exception) exactly when the token does not split into exactly three
dot-separated segments, or the base64url encoding of the recomputed HMAC
differs as a string from the third segment, or the leniently
base64url-decoded payload bytes fail to parse as JSON, or they parse as
the JSON literal `null`.  Base64url decoding itself never fails, and no
SessionPayload shape check is performed. -/
theorem session_c7 (t : String) :
    decrypt t = Js.null ↔
      ((splitOnDot t.data).length ≠ 3 ∨
       ∃ h p s, splitOnDot t.data = [h, p, s] ∧
         (b64urlChars (hmacChars (h ++ '.' :: p)) ≠ s ∨
          jsonParse (utf8Decode (b64urlDecode (String.mk p))) = none ∨
          jsonParse (utf8Decode (b64urlDecode (String.mk p))) = some Js.null)) := by
  unfold decrypt
  rcases hsp : splitOnDot t.data with _ | ⟨a, _ | ⟨b, _ | ⟨c, _ | ⟨d, r⟩⟩⟩⟩
  · simp [hsp]
  · simp [hsp]
  · simp [hsp]
  · dsimp only
    by_cases hsig : b64urlChars (hmacChars (a ++ '.' :: b)) = c
    · rw [if_pos hsig]
      rcases hj : jsonParse (utf8Decode (b64urlDecode (String.mk b))) with _ | v
      · simp only [List.length_cons]
        constructor
        · intro _
          exact Or.inr ⟨a, b, c, rfl, Or.inr (Or.inl hj)⟩
        · intro _
          trivial
      · dsimp only
        constructor
        · intro hv
          exact Or.inr ⟨a, b, c, rfl, Or.inr (Or.inr (by rw [hj, hv]))⟩
        · intro hcases
          rcases hcases with hlen | ⟨h2, p2, s2, heq, hdisj⟩
          · simp at hlen
          · injection heq with e1 heq2
            injection heq2 with e2 heq3
            injection heq3 with e3 _
            subst e1
            subst e2
            subst e3
            rcases hdisj with hd | hd | hd
            · exact absurd hsig hd
            · rw [hj] at hd
              exact Option.noConfusion hd
            · rw [hj] at hd
              injection hd
    · rw [if_neg hsig]
      constructor
      · intro _
        exact Or.inr ⟨a, b, c, rfl, Or.inl hsig⟩
      · intro _
        trivial
  · simp [hsp]

/-- Claim C8: one flash append never leaves more than 10 entries, and
appending 15 messages in sequence leaves exactly the last 10 in their
original relative order, for every starting list. -/
theorem session_c8 (start : List String) (e : String) (msgs : List String) :
    (appendFlash start e).length ≤ 10 ∧
    (msgs.length = 15 → List.foldl appendFlash start msgs = msgs.drop 5) := by
  refine ⟨appendFlash_length_le start e, ?_⟩
  intro h15
  have hne : msgs ≠ [] := by
    intro h
    rw [h] at h15
    simp at h15
  rw [foldl_appendFlash msgs start hne]
  rw [List.length_append, h15]
  rw [show start.length + 15 - 10 = start.length + 5 from by omega]
  exact List.drop_append 5

/-- Witness for C8: fifteen concrete messages over a concrete start. -/
theorem session_c8_witness :
    (appendFlash ["a"] "b").length ≤ 10 ∧
    List.foldl appendFlash ["s1", "s2"]
      ["m1", "m2", "m3", "m4", "m5", "m6", "m7", "m8", "m9", "m10",
       "m11", "m12", "m13", "m14", "m15"] =
      ["m6", "m7", "m8", "m9", "m10", "m11", "m12", "m13", "m14", "m15"] :=
  ⟨(session_c8 ["a"] "b" []).1,
   ((session_c8 ["s1", "s2"] "b"
      ["m1", "m2", "m3", "m4", "m5", "m6", "m7", "m8", "m9", "m10",
       "m11", "m12", "m13", "m14", "m15"]).2 (by decide)).trans rfl⟩

/-- Claim C9: a payload whose `user` field is null is never authenticated:
for any expiry and time, the protected page redirects to `/` and the save
action redirects to `/` without setting the flash cookie. -/
theorem session_c9 (e now : Int) (flash : Option String) (ts : String) :
    protectedPage (some (encrypt ⟨none, e⟩)) flash now = PageResult.redirect "/" ∧
    saveAction (some (encrypt ⟨none, e⟩)) flash now ts = ⟨none, "/"⟩ := by
  have hsess : sessionUserTruthy (getSession (some (encrypt ⟨none, e⟩)) now) = false := by
    rw [getSession_encrypt]
    split_ifs with he
    · rfl
    · rfl
  constructor
  · simp [protectedPage, hsess]
  · simp [saveAction, hsess]

/-- Claim C10: whenever `updateSession` on a served token attaches a
cookie, the refreshed payload is the incoming payload with only `expires`
replaced: the `user` field is preserved unchanged, and the attributes are
the login attributes. -/
theorem session_c10 (P : SessionPayload) (now : Int) (sc : SetCookie)
    (h : updateSession (some (encrypt P)) now = some sc) :
    sc = sessionCookieOpts (encrypt ⟨P.user, now + 600000⟩) := by
  rw [updateSession_encrypt] at h
  split_ifs at h with hc
  injection h with h1
  exact h1.symm

/-- Witness for C10 at a concrete refresh. -/
theorem session_c10_witness :
    updateSession (some (encrypt ⟨some ⟨"Admin"⟩, 0⟩)) 0 =
      some (sessionCookieOpts (encrypt ⟨some ⟨"Admin"⟩, 0 + 600000⟩)) ∧
    sessionCookieOpts (encrypt ⟨some ⟨"Admin"⟩, 0 + 600000⟩) =
      sessionCookieOpts (encrypt ⟨some ⟨"Admin"⟩, 0 + 600000⟩) := by
  have hstep : updateSession (some (encrypt ⟨some ⟨"Admin"⟩, 0⟩)) 0 =
      some (sessionCookieOpts (encrypt ⟨some ⟨"Admin"⟩, 0 + 600000⟩)) := by
    rw [updateSession_encrypt]
    rw [if_pos (by decide)]
  exact ⟨hstep, session_c10 ⟨some ⟨"Admin"⟩, 0⟩ 0 _ hstep⟩
